import Mathlib

/-!
Verification of the NFT generation engine of `c3nft.py`.

The generation core of the repository consists of the pure helpers
`_weighted_choice`, `_merge_mapping_sets`, `_is_excluded_by_pairs` and the
orchestrating `run_generation`.  This file gives a shallow embedding of that
core:

* Python dicts holding string keys are modelled as insertion-ordered
  association lists (`dict_get` / `dict_set` mirror `d.get(k)` / `d[k] = v`).
* `s.split(":", 1)` is `split_key`, splitting a key at its first colon and
  failing exactly when no colon is present (the `ValueError` path).
* Randomness is an oracle (`Draws`): one value per kind of draw, indexed by
  the position of the layer in `final_layer_order`; a run supplies one oracle
  per edition.  Floats are modelled as rationals.
* Filesystem and imaging effects of one edition are abstracted into an effect
  oracle `Eff`: an edition either completes (`ok`), raises before the
  duplicate check (`failEarly`, e.g. canvas creation), raises after the check
  but before the DNA is added to the set (`failCompose`, the compositing
  loop), or raises after `generated_dna.add(dna)` (`failLate`, saving the
  image or the metadata).  The `except Exception` handler of the source
  counts any of these as one error.

Definitions are translated line by line from `src/c3nft.py`; the one
spec-side definition (`spec_last_writer_wins`) is clearly marked and is used
only to compare the merge of mapping sets against the specification text.
-/

namespace C3NFT

/-- Python `d.get(k)` on a string-keyed dict modelled as an association list
with unique keys: return the value of the first (hence only) binding. -/
def dict_get {α : Type} : List (String × α) → String → Option α
  | [], _ => none
  | (k, v) :: rest, key => if k = key then some v else dict_get rest key

/-- Python `d[k] = v`: replace the value in place if the key is bound,
otherwise append the new binding (insertion order of dicts). -/
def dict_set {α : Type} : List (String × α) → String → α → List (String × α)
  | [], key, v => [(key, v)]
  | (k, w) :: rest, key, v =>
    if k = key then (key, v) :: rest else (k, w) :: dict_set rest key v

/-- Helper for `split_key`: split a character list at the first colon.
`none` when the list has no colon. -/
def split_key_aux : List Char → Option (List Char × List Char)
  | [] => none
  | c :: cs =>
    if c = ':' then some ([], cs)
    else (split_key_aux cs).map (fun p => (c :: p.1, p.2))

/-- Python `s.split(":", 1)` unpacked into two parts: splits at the first
colon, raising (`none`) exactly when the string contains no colon. -/
def split_key (s : String) : Option (String × String) :=
  (split_key_aux s.data).map (fun p => (⟨p.1⟩, ⟨p.2⟩))

/-- The walk of `_weighted_choice`: `for opt, w in zip(options, weights)`,
skipping non-positive weights, returning the first option whose cumulative
weight reaches the draw `r`; when `zip` is exhausted, `options[-1]` of the
full option list is the fallback.  The weights of this program are the
integer trait rarities, so the running total `upto` stays an integer and
only the uniform draw `r` is a rational. -/
def wc_walk (full : List String) :
    List String → List Int → Int → ℚ → Option String
  | opt :: opts, w :: wts, upto, r =>
    if w ≤ 0 then wc_walk full opts wts upto r
    else if r ≤ ((upto + w : Int) : ℚ) then some opt
    else wc_walk full opts wts (upto + w) r
  | _, _, _, _ => full.getLast?

/-- `_weighted_choice(options, weights)`.  `r` stands for the value drawn by
`random.uniform(0, total)` and `idx` for the index drawn by `random.choice`
in the all-weights-non-positive fallback. -/
def weighted_choice (options : List String) (weights : List Int)
    (r : ℚ) (idx : Nat) : Option String :=
  if (weights.filter (fun w => decide (0 < w))).sum ≤ 0 then
    match options with
    | [] => none
    | _ => options.get? (idx % options.length)
  else wc_walk options options weights 0 r

/-- `_is_excluded_by_pairs(candidate_key, selected_keys, exclude_pairs)`:
the candidate conflicts with some already selected key via some exclude
pair, in either pair order. -/
def is_excluded_by_pairs (candidate : String) (selected_keys : List String)
    (exclude_pairs : List (String × String)) : Bool :=
  selected_keys.any fun sk => exclude_pairs.any fun p =>
    decide ((candidate = p.1 ∧ sk = p.2) ∨ (candidate = p.2 ∧ sk = p.1))

/-- The required-trait scan of `run_generation`: first include pair whose
source key (re-joined from its parsed parts) is already selected and whose
target layer is the current layer; pairs whose keys lack a colon are
skipped (the `ValueError` handler). -/
def find_required (include_pairs : List (String × String))
    (selected_keys : List String) (layer : String) : Option String :=
  include_pairs.findSome? fun p =>
    match split_key p.1, split_key p.2 with
    | some (la, ta), some (lb, tb) =>
      if (la ++ ":" ++ ta) ∈ selected_keys ∧ lb = layer then some tb else none
    | _, _ => none

/-- The per-trait weight of `run_generation`:
`weight = int(trait_rarities.get(key, 100)); if weight < 0: weight = 0`. -/
def trait_weight (trait_rarities : List (String × Int)) (key : String) : Int :=
  if (dict_get trait_rarities key).getD 100 < 0 then 0
  else (dict_get trait_rarities key).getD 100

/-- One include pair of the post-selection inclusion scan of
`run_generation`: if the pair's source equals the just-selected key, parse
the target; if the target layer is not yet in `selected`, record the target
trait in the forced dict. -/
def uf_step (key : String) (selected : List (String × String))
    (f : List (String × String)) (p : String × String) :
    List (String × String) :=
  if p.1 = key then
    match split_key p.2 with
    | some q => if dict_get selected q.1 = none then dict_set f q.1 q.2 else f
    | none => f
  else f

/-- The post-selection inclusion scan of `run_generation`: fold `uf_step`
over all include pairs. -/
def update_forced (include_pairs : List (String × String)) (key : String)
    (selected : List (String × String)) (forced : List (String × String)) :
    List (String × String) :=
  include_pairs.foldl (uf_step key selected) forced

/-- The merged ruleset produced by `_merge_mapping_sets` and consumed by the
selection loop of `run_generation`. -/
structure MergedRules where
  trait_rarities : List (String × Int)
  layer_rarities : List (String × Int)
  include_pairs : List (String × String)
  exclude_pairs : List (String × String)
deriving DecidableEq

/-- The values `run_generation` computes once per run and then reads only:
`final_layer_order`, the trait catalog `all_traits`, and the merged rules. -/
structure RunParams where
  final_layer_order : List String
  all_traits : List (String × List String)
  rules : MergedRules
deriving DecidableEq

/-- The random draws one edition can consume, indexed by the position of the
layer in `final_layer_order`: `presence i` is the `random.random()` presence
draw at layer `i`, `pick i` the `random.uniform(0, total)` draw of the
weighted choice there, `pickIdx i` the `random.choice` index of its
uniform fallback. -/
structure Draws where
  presence : Nat → ℚ
  pick : Nat → ℚ
  pickIdx : Nat → Nat

/-- The per-edition mutable state of the selection loop: the `selected`
dict, the `selected_keys` list, and the `forced_selection` dict. -/
structure SelState where
  selected : List (String × String)
  selected_keys : List String
  forced_selection : List (String × String)
deriving DecidableEq

/-- The trait-determination block of the layer loop: the value
`chosen_trait` holds after the forced lookup, the required-trait scan and
the weighted random choice of `run_generation`; `none` encodes the
`continue` paths (required trait missing from the catalog, no viable
option, empty choice). -/
def chosen_for (P : RunParams) (d : Draws) (i : Nat) (layer : String)
    (st : SelState) (options : List String) : Option String :=
  match dict_get st.forced_selection layer with
  | some t => some t
  | none =>
    match find_required P.rules.include_pairs st.selected_keys layer with
    | some tb => if tb ∈ options then some tb else none
    | none =>
      let viable := options.filter fun t =>
        !is_excluded_by_pairs (layer ++ ":" ++ t) st.selected_keys
          P.rules.exclude_pairs
      let wts := viable.map fun t =>
        trait_weight P.rules.trait_rarities (layer ++ ":" ++ t)
      if viable = [] then none
      else weighted_choice viable wts (d.pick i) (d.pickIdx i)

/-- The registration block at the end of the layer loop:
`selected[layer] = chosen_trait`, append the key to `selected_keys`, and run
the inclusion-chain scan. -/
def register_trait (P : RunParams) (layer t : String) (st : SelState) :
    SelState :=
  let selected := dict_set st.selected layer t
  let key := layer ++ ":" ++ t
  ⟨selected, st.selected_keys ++ [key],
   update_forced P.rules.include_pairs key selected st.forced_selection⟩

/-- One iteration of the layer loop of `run_generation` (layer at position
`i` of `final_layer_order`): skip a layer with no catalog traits, apply the
layer-rarity presence draw unless the layer is forced, then determine and
register the trait. -/
def select_layer (P : RunParams) (d : Draws) (i : Nat) (layer : String)
    (st : SelState) : SelState :=
  if (dict_get P.all_traits layer).getD [] = [] then st
  else if (dict_get st.forced_selection layer).isSome = false ∧
      Rat.divInt ((dict_get P.rules.layer_rarities layer).getD 100) 100 <
        d.presence i then st
  else
    match chosen_for P d i layer st ((dict_get P.all_traits layer).getD []) with
    | none => st
    | some t => register_trait P layer t st

/-- Fold the layer loop over a list of positioned layers. -/
def sel_fold (P : RunParams) (d : Draws) (lp : List (Nat × String))
    (st : SelState) : SelState :=
  lp.foldl (fun st p => select_layer P d p.1 p.2 st) st

/-- The whole selection phase of one edition: fold `select_layer` over
`final_layer_order` with its positions, starting from empty state. -/
def select_edition (P : RunParams) (d : Draws) : SelState :=
  sel_fold P d P.final_layer_order.enum ⟨[], [], []⟩

/-- The DNA fingerprint of an edition:
`"|".join(f"LAYER:TRAIT-or-__none__" for layer in final_layer_order)`. -/
def dna_of (final_layer_order : List String)
    (selected : List (String × String)) : String :=
  String.intercalate "|" (final_layer_order.map fun layer =>
    layer ++ ":" ++ ((dict_get selected layer).getD "__none__"))

/-- Where, if anywhere, the effectful part of one edition raises: nowhere
(`ok`), before the duplicate check (`failEarly`), after the check but before
`generated_dna.add` (`failCompose`), or after the add, while saving the
image or metadata (`failLate`). -/
inductive Eff
  | ok
  | failEarly
  | failCompose
  | failLate
deriving DecidableEq

/-- The outcome category of one edition number. -/
inductive Category
  | success
  | duplicate
  | error
deriving DecidableEq

/-- The stats dict of `run_generation`. -/
structure Stats where
  success : Nat
  duplicates : Nat
  errors : Nat
deriving DecidableEq

/-- One line of the run log: edition number, its DNA, and which of the three
stats counters the edition incremented. -/
structure EdRecord where
  num : Nat
  dna : String
  cat : Category
deriving DecidableEq

/-- The state threaded through the edition loop: the `generated_dna` set
(as the list of strings added so far), the stats, and the per-edition
records. -/
structure RunState where
  generated_dna : List String
  stats : Stats
  records : List EdRecord
deriving DecidableEq

/-- Increment the stats counter named by a category. -/
def bump (s : Stats) : Category → Stats
  | .success => { s with success := s.success + 1 }
  | .duplicate => { s with duplicates := s.duplicates + 1 }
  | .error => { s with errors := s.errors + 1 }

/-- The DNA computed for edition `n`: select traits with the edition's
draws and fingerprint the selection. -/
def edition_dna (P : RunParams) (ds : Nat → Draws) (n : Nat) : String :=
  dna_of P.final_layer_order (select_edition P (ds n)).selected

/-- The outcome category of edition `n` over a given DNA set: an exception
before the duplicate check is an error; otherwise a DNA already in the set
is a duplicate; otherwise a clean run is a success and any exception an
error. -/
def edition_cat (es : Nat → Eff) (dna : String) (dna_set : List String)
    (n : Nat) : Category :=
  if es n = .failEarly then .error
  else if dna ∈ dna_set then .duplicate
  else if es n = .ok then .success
  else .error

/-- The DNA set after edition `n`: `generated_dna.add(dna)` runs only when
the duplicate check passed and no exception fired before the add (the
compositing loop sits between the check and the add; saving the image and
the metadata sit after the add). -/
def edition_dna_set (es : Nat → Eff) (dna : String) (dna_set : List String)
    (n : Nat) : List String :=
  if es n = .failEarly then dna_set
  else if dna ∈ dna_set then dna_set
  else if es n = .failCompose then dna_set
  else dna :: dna_set

/-- The body of the edition loop of `run_generation` for edition `n`:
select traits, build the DNA, run the duplicate check, then the effectful
tail under the `except Exception` handler. -/
def edition_step (P : RunParams) (ds : Nat → Draws) (es : Nat → Eff)
    (st : RunState) (n : Nat) : RunState :=
  ⟨edition_dna_set es (edition_dna P ds n) st.generated_dna n,
   bump st.stats (edition_cat es (edition_dna P ds n) st.generated_dna n),
   st.records ++
     [⟨n, edition_dna P ds n,
       edition_cat es (edition_dna P ds n) st.generated_dna n⟩]⟩

/-- Fold the edition loop over a list of edition numbers. -/
def run_fold (P : RunParams) (ds : Nat → Draws) (es : Nat → Eff)
    (l : List Nat) (st : RunState) : RunState :=
  l.foldl (edition_step P ds es) st

/-- `run_generation(config, edition_size, ...)` restricted to its
algorithmic content: iterate edition numbers `1 .. edition_size` over the
per-run parameters, threading the DNA set and the stats. -/
def run_generation (P : RunParams) (edition_size : Nat)
    (ds : Nat → Draws) (es : Nat → Eff) : RunState :=
  run_fold P ds es (List.range' 1 edition_size) ⟨[], ⟨0, 0, 0⟩, []⟩

/-- One named mapping set as read from `saved_mappings.json`: trait
rarities (field `rarities`), layer rarities, include pairs, exclude pairs. -/
structure MappingSet where
  rarities : List (String × Int)
  layer_rarities : List (String × Int)
  include_pairs : List (String × String)
  exclude_pairs : List (String × String)
deriving DecidableEq

/-- Overlay the key-value pairs of one mapping-set dict onto an accumulator
dict: `for k, v in items: acc[k] = v`. -/
def overlay_dict (d : List (String × Int)) (items : List (String × Int)) :
    List (String × Int) :=
  items.foldl (fun acc kv => dict_set acc kv.1 kv.2) d

/-- One name of the merge loop of `_merge_mapping_sets`: an absent name
contributes nothing (warned, skipped); for a present set the rarity dicts
are overlaid key by key and the pair lists are appended. -/
def ms_step (saved : String → Option MappingSet) (acc : MergedRules)
    (name : String) : MergedRules :=
  match saved name with
  | none => acc
  | some m =>
    { trait_rarities := overlay_dict acc.trait_rarities m.rarities
      layer_rarities := overlay_dict acc.layer_rarities m.layer_rarities
      include_pairs := acc.include_pairs ++ m.include_pairs
      exclude_pairs := acc.exclude_pairs ++ m.exclude_pairs }

/-- `_merge_mapping_sets(config)`: fold the named mapping sets in list
order over an empty accumulator. -/
def merge_mapping_sets (names : List String)
    (saved : String → Option MappingSet) : MergedRules :=
  names.foldl (ms_step saved) ⟨[], [], [], []⟩

/-- Left-biased choice between two optional values. -/
def opt_or {α : Type} : Option α → Option α → Option α
  | some v, _ => some v
  | none, b => b

/-- The last binding of a key in a list of writes: the value the key holds
after all writes are applied in order (later bindings win). -/
def lookup_last {α : Type} : List (String × α) → String → Option α
  | [], _ => none
  | kv :: rest, key =>
    opt_or (lookup_last rest key) (if kv.1 = key then some kv.2 else none)

/-- Spec-side reading of the rule merger, following the words of the
specification: for each rarity key, last-writer-wins across the present
mapping sets taken in order, a later set overriding an earlier one
(`field` selects one of the two rarity dicts). -/
def spec_last_writer_wins (field : MappingSet → List (String × Int)) :
    List MappingSet → String → Option Int
  | [], _ => none
  | m :: rest, key =>
    opt_or (spec_last_writer_wins field rest key) (lookup_last (field m) key)

/-! ### Association-list dictionaries -/

theorem dict_get_set {α : Type} (m : List (String × α)) (k : String) (v : α)
    (key : String) :
    dict_get (dict_set m k v) key = if k = key then some v else dict_get m key := by
  induction m with
  | nil =>
    simp only [dict_set, dict_get]
  | cons kv rest ih =>
    obtain ⟨k', v'⟩ := kv
    simp only [dict_set]
    by_cases hk : k' = k
    · subst hk
      simp only [if_pos rfl, dict_get]
      by_cases hkey : k' = key <;> simp [hkey]
    · rw [if_neg hk]
      simp only [dict_get, ih]
      by_cases hkey : k' = key
      · subst hkey
        rw [if_pos rfl, if_neg (fun h => hk h.symm), if_pos rfl]
      · rw [if_neg hkey, if_neg hkey]

theorem dict_get_set_self {α : Type} (m : List (String × α)) (k : String)
    (v : α) : dict_get (dict_set m k v) k = some v := by
  rw [dict_get_set, if_pos rfl]

theorem dict_get_set_ne {α : Type} (m : List (String × α)) (k : String)
    (v : α) (key : String) (h : k ≠ key) :
    dict_get (dict_set m k v) key = dict_get m key := by
  rw [dict_get_set, if_neg h]

theorem isSome_dict_get_set {α : Type} (m : List (String × α)) (k : String)
    (v : α) (key : String) (h : (dict_get m key).isSome) :
    (dict_get (dict_set m k v) key).isSome := by
  rw [dict_get_set]
  split
  · rfl
  · exact h

/-! ### Splitting keys at the first colon -/

theorem split_key_aux_join :
    ∀ (cs l r : List Char), split_key_aux cs = some (l, r) → l ++ ':' :: r = cs := by
  intro cs
  induction cs with
  | nil => intro l r h; simp [split_key_aux] at h
  | cons c cs ih =>
    intro l r h
    simp only [split_key_aux] at h
    by_cases hc : c = ':'
    · rw [if_pos hc] at h
      simp only [Option.some.injEq, Prod.mk.injEq] at h
      obtain ⟨h1, h2⟩ := h
      subst h1; subst h2; subst hc; rfl
    · rw [if_neg hc] at h
      cases haux : split_key_aux cs with
      | none => rw [haux] at h; exact Option.noConfusion h
      | some p =>
        rw [haux] at h
        obtain ⟨pl, pr⟩ := p
        simp only [Option.map_some', Option.some.injEq, Prod.mk.injEq] at h
        obtain ⟨h1, h2⟩ := h
        subst h1; subst h2
        simpa using ih pl pr haux

theorem split_key_join (s la ta : String) (h : split_key s = some (la, ta)) :
    la ++ ":" ++ ta = s := by
  obtain ⟨data⟩ := s
  simp only [split_key] at h
  cases haux : split_key_aux data with
  | none => rw [haux] at h; exact Option.noConfusion h
  | some p =>
    rw [haux] at h
    obtain ⟨pl, pr⟩ := p
    simp only [Option.map_some', Option.some.injEq, Prod.mk.injEq] at h
    obtain ⟨h1, h2⟩ := h
    have hj := split_key_aux_join data pl pr haux
    subst h1; subst h2
    show (⟨pl⟩ : String) ++ ⟨[':']⟩ ++ ⟨pr⟩ = ⟨data⟩
    have hstep : (⟨pl⟩ : String) ++ ⟨[':']⟩ ++ ⟨pr⟩ = ⟨pl ++ [':'] ++ pr⟩ := rfl
    rw [hstep, ← hj]
    simp

/-! ### Left-biased option choice -/

theorem opt_or_none_right {α : Type} (a : Option α) : opt_or a none = a := by
  cases a <;> rfl

theorem opt_or_assoc {α : Type} (a b c : Option α) :
    opt_or (opt_or a b) c = opt_or a (opt_or b c) := by
  cases a <;> rfl

/-! ### Weighted choice -/

theorem getLast?_isSome_of_ne_nil {α : Type} (l : List α) (h : l ≠ []) :
    l.getLast?.isSome := by
  rw [List.getLast?_eq_getLast_of_ne_nil h]; rfl

theorem mem_of_getLast?_eq_some {α : Type} (l : List α) (t : α)
    (h : l.getLast? = some t) : t ∈ l := by
  obtain ⟨hne, heq⟩ := List.mem_getLast?_eq_getLast (Option.mem_def.mpr h)
  rw [heq]; exact List.getLast_mem hne

theorem wc_walk_isSome (full : List String) (h : full ≠ []) :
    ∀ (opts : List String) (wts : List Int) (upto : Int) (r : ℚ),
      (wc_walk full opts wts upto r).isSome := by
  intro opts
  induction opts with
  | nil =>
    intro wts upto r
    show (full.getLast?).isSome
    exact getLast?_isSome_of_ne_nil full h
  | cons o os ih =>
    intro wts upto r
    cases wts with
    | nil =>
      show (full.getLast?).isSome
      exact getLast?_isSome_of_ne_nil full h
    | cons w ws =>
      simp only [wc_walk]
      split
      · exact ih ws upto r
      · split
        · rfl
        · exact ih ws (upto + w) r

theorem wc_walk_mem (full : List String) :
    ∀ (opts : List String) (wts : List Int) (upto : Int) (r : ℚ) (t : String),
      (∀ x ∈ opts, x ∈ full) → wc_walk full opts wts upto r = some t →
      t ∈ full := by
  intro opts
  induction opts with
  | nil =>
    intro wts upto r t _ h
    exact mem_of_getLast?_eq_some full t h
  | cons o os ih =>
    intro wts upto r t hsub h
    cases wts with
    | nil => exact mem_of_getLast?_eq_some full t h
    | cons w ws =>
      simp only [wc_walk] at h
      split at h
      · exact ih ws upto r t (fun x hx => hsub x (List.mem_cons_of_mem o hx)) h
      · split at h
        · cases h
          exact hsub _ (List.mem_cons_self _ _)
        · exact ih ws (upto + w) r t
            (fun x hx => hsub x (List.mem_cons_of_mem o hx)) h

theorem weighted_choice_isSome (options : List String) (weights : List Int)
    (r : ℚ) (idx : Nat) (h : options ≠ []) :
    (weighted_choice options weights r idx).isSome := by
  unfold weighted_choice
  split
  · cases options with
    | nil => exact absurd rfl h
    | cons o os =>
      have hlt : idx % (o :: os).length < (o :: os).length :=
        Nat.mod_lt idx (by simp)
      rw [List.get?_eq_get hlt]
      rfl
  · exact wc_walk_isSome options h options weights 0 r

theorem weighted_choice_mem (options : List String) (weights : List Int)
    (r : ℚ) (idx : Nat) (t : String)
    (h : weighted_choice options weights r idx = some t) : t ∈ options := by
  unfold weighted_choice at h
  split at h
  · cases options with
    | nil => exact Option.noConfusion h
    | cons o os => exact List.get?_mem h
  · exact wc_walk_mem options options weights 0 r t (fun x hx => hx) h

/-! ### The inclusion scan -/

theorem update_forced_cons (key : String) (sel f : List (String × String))
    (p : String × String) (ps : List (String × String)) :
    update_forced (p :: ps) key sel f =
      update_forced ps key sel (uf_step key sel f p) := rfl

theorem isSome_uf_step (key : String) (sel f : List (String × String))
    (p : String × String) (lb : String) (h : (dict_get f lb).isSome) :
    (dict_get (uf_step key sel f p) lb).isSome := by
  unfold uf_step
  split
  · split
    · split
      · exact isSome_dict_get_set _ _ _ _ h
      · exact h
    · exact h
  · exact h

theorem isSome_update_forced (pairs : List (String × String)) (key : String)
    (sel f : List (String × String)) (lb : String)
    (h : (dict_get f lb).isSome) :
    (dict_get (update_forced pairs key sel f) lb).isSome := by
  induction pairs generalizing f with
  | nil => exact h
  | cons p ps ih =>
    rw [update_forced_cons]
    exact ih _ (isSome_uf_step key sel f p lb h)

theorem update_forced_get_other (pairs : List (String × String))
    (key : String) (sel f : List (String × String)) (L : String)
    (hT : ∀ p ∈ pairs, ∀ q, split_key p.2 = some q → q.1 ≠ L) :
    dict_get (update_forced pairs key sel f) L = dict_get f L := by
  induction pairs generalizing f with
  | nil => rfl
  | cons p ps ih =>
    rw [update_forced_cons]
    rw [ih (uf_step key sel f p) (fun p' hp' => hT p' (List.mem_cons_of_mem p hp'))]
    unfold uf_step
    split
    · cases hq : split_key p.2 with
      | none => rfl
      | some q =>
        simp only
        split
        · exact dict_get_set_ne _ _ _ _ (hT p (List.mem_cons_self p ps) q hq)
        · rfl
    · rfl

theorem update_forced_complete (pairs : List (String × String))
    (key : String) (sel f : List (String × String)) (p : String × String)
    (hp : p ∈ pairs) (hk : p.1 = key) (q : String × String)
    (hsplit : split_key p.2 = some q) :
    (dict_get (update_forced pairs key sel f) q.1).isSome ∨
      (dict_get sel q.1).isSome := by
  induction pairs generalizing f with
  | nil => cases hp
  | cons p' ps ih =>
    rw [update_forced_cons]
    rcases List.mem_cons.mp hp with heq | htail
    · subst heq
      by_cases hsel : dict_get sel q.1 = none
      · left
        apply isSome_update_forced
        have hstep : uf_step key sel f p = dict_set f q.1 q.2 := by
          unfold uf_step
          rw [if_pos hk, hsplit]
          simp only [if_pos hsel]
        rw [hstep]
        rw [dict_get_set_self]
        rfl
      · right
        exact Option.isSome_iff_ne_none.mpr hsel
    · exact ih _ htail

/-! ### The required-trait scan -/

theorem find_required_eq_some (pairs : List (String × String))
    (keys : List String) (L tb : String)
    (h : find_required pairs keys L = some tb) :
    ∃ p ∈ pairs, ∃ la ta lb, split_key p.1 = some (la, ta) ∧
      split_key p.2 = some (lb, tb) ∧ (la ++ ":" ++ ta) ∈ keys ∧ lb = L := by
  unfold find_required at h
  obtain ⟨p, hp, hf⟩ := List.exists_of_findSome?_eq_some h
  refine ⟨p, hp, ?_⟩
  cases h1 : split_key p.1 with
  | none => rw [h1] at hf; exact Option.noConfusion hf
  | some q1 =>
    cases h2 : split_key p.2 with
    | none => rw [h1, h2] at hf; exact Option.noConfusion hf
    | some q2 =>
      rw [h1, h2] at hf
      obtain ⟨la, ta⟩ := q1
      obtain ⟨lb, tb'⟩ := q2
      simp only at hf
      split at hf
      · rename_i hcond
        cases hf
        exact ⟨la, ta, lb, rfl, rfl, hcond.1, hcond.2⟩
      · exact Option.noConfusion hf

/-! ### The layer loop -/

theorem register_trait_def (P : RunParams) (L t : String) (st : SelState) :
    register_trait P L t st =
      ⟨dict_set st.selected L t, st.selected_keys ++ [L ++ ":" ++ t],
       update_forced P.rules.include_pairs (L ++ ":" ++ t)
         (dict_set st.selected L t) st.forced_selection⟩ := rfl

theorem select_layer_cases (P : RunParams) (d : Draws) (i : Nat) (L : String)
    (st : SelState) :
    select_layer P d i L st = st ∨
      ∃ t, chosen_for P d i L st ((dict_get P.all_traits L).getD []) = some t ∧
        select_layer P d i L st = register_trait P L t st := by
  unfold select_layer
  split
  · exact Or.inl rfl
  · split
    · exact Or.inl rfl
    · cases hc : chosen_for P d i L st ((dict_get P.all_traits L).getD []) with
      | none => exact Or.inl rfl
      | some t => exact Or.inr ⟨t, rfl, rfl⟩

theorem select_layer_selected_mono (P : RunParams) (d : Draws) (i : Nat)
    (L : String) (st : SelState) (L' : String)
    (h : (dict_get st.selected L').isSome) :
    (dict_get (select_layer P d i L st).selected L').isSome := by
  rcases select_layer_cases P d i L st with heq | ⟨t, _, heq⟩ <;> rw [heq]
  · exact h
  · rw [register_trait_def]
    exact isSome_dict_get_set _ _ _ _ h

theorem select_layer_forced_mono (P : RunParams) (d : Draws) (i : Nat)
    (L : String) (st : SelState) (L' : String)
    (h : (dict_get st.forced_selection L').isSome) :
    (dict_get (select_layer P d i L st).forced_selection L').isSome := by
  rcases select_layer_cases P d i L st with heq | ⟨t, _, heq⟩ <;> rw [heq]
  · exact h
  · rw [register_trait_def]
    exact isSome_update_forced _ _ _ _ _ h

theorem select_layer_keys_mono (P : RunParams) (d : Draws) (i : Nat)
    (L : String) (st : SelState) (k : String) (h : k ∈ st.selected_keys) :
    k ∈ (select_layer P d i L st).selected_keys := by
  rcases select_layer_cases P d i L st with heq | ⟨t, _, heq⟩ <;> rw [heq]
  · exact h
  · rw [register_trait_def]
    exact List.mem_append_left _ h

theorem sel_fold_cons (P : RunParams) (d : Draws) (p : Nat × String)
    (lp : List (Nat × String)) (st : SelState) :
    sel_fold P d (p :: lp) st =
      sel_fold P d lp (select_layer P d p.1 p.2 st) := rfl

theorem sel_fold_selected_mono (P : RunParams) (d : Draws)
    (lp : List (Nat × String)) (st : SelState) (L : String)
    (h : (dict_get st.selected L).isSome) :
    (dict_get (sel_fold P d lp st).selected L).isSome := by
  induction lp generalizing st with
  | nil => exact h
  | cons p ps ih =>
    rw [sel_fold_cons]
    exact ih _ (select_layer_selected_mono P d p.1 p.2 st L h)

/-- The inclusion invariant of the selection loop: once an include pair's
source key has been selected, the pair's target layer is either forced or
already selected. -/
def inclusion_inv (P : RunParams) (st : SelState) : Prop :=
  ∀ p ∈ P.rules.include_pairs, ∀ la ta lb tb,
    split_key p.1 = some (la, ta) → split_key p.2 = some (lb, tb) →
    p.1 ∈ st.selected_keys →
    ((dict_get st.forced_selection lb).isSome ∨
      (dict_get st.selected lb).isSome)

theorem select_layer_inclusion_inv (P : RunParams) (d : Draws) (i : Nat)
    (L : String) (st : SelState) (h : inclusion_inv P st) :
    inclusion_inv P (select_layer P d i L st) := by
  rcases select_layer_cases P d i L st with heq | ⟨t, _, heq⟩ <;> rw [heq]
  · exact h
  · rw [register_trait_def]
    intro p hp la ta lb tb h1 h2 hmem
    rcases List.mem_append.mp hmem with hold | hnew
    · rcases h p hp la ta lb tb h1 h2 hold with hf | hs
      · exact Or.inl (isSome_update_forced _ _ _ _ _ hf)
      · exact Or.inr (isSome_dict_get_set _ _ _ _ hs)
    · have hkey : p.1 = L ++ ":" ++ t := by simpa using hnew
      exact update_forced_complete P.rules.include_pairs (L ++ ":" ++ t)
        (dict_set st.selected L t) st.forced_selection p hp hkey (lb, tb) h2

theorem is_excluded_nil (c : String) (keys : List String) :
    is_excluded_by_pairs c keys [] = false := by
  simp [is_excluded_by_pairs]

/-- When the forced dict has no entry for the layer and `chosen_for` still
yields no trait, the layer must already be selected, provided there are
catalog options, no exclusion pairs, and the inclusion invariant holds. -/
theorem chosen_for_none_selected (P : RunParams) (d : Draws) (i : Nat)
    (L : String) (st : SelState) (hinv : inclusion_inv P st)
    (hE : P.rules.exclude_pairs = [])
    (hopt : (dict_get P.all_traits L).getD [] ≠ [])
    (hforced : dict_get st.forced_selection L = none)
    (hc : chosen_for P d i L st ((dict_get P.all_traits L).getD []) = none) :
    (dict_get st.selected L).isSome := by
  unfold chosen_for at hc
  rw [hforced] at hc
  cases hr : find_required P.rules.include_pairs st.selected_keys L with
  | some tb =>
    rw [hr] at hc
    obtain ⟨p, hp, la, ta, lb, h1, h2, hmem, hlb⟩ :=
      find_required_eq_some _ _ _ _ hr
    have hjoin := split_key_join p.1 la ta h1
    rw [hjoin] at hmem
    rcases hinv p hp la ta lb tb h1 h2 hmem with hf | hs
    · rw [hlb, hforced] at hf
      simp at hf
    · rw [hlb] at hs
      exact hs
  | none =>
    rw [hr] at hc
    simp only [hE, is_excluded_nil, Bool.not_false, List.filter_true] at hc
    rw [if_neg hopt] at hc
    have hsome := weighted_choice_isSome ((dict_get P.all_traits L).getD [])
      (((dict_get P.all_traits L).getD []).map fun t =>
        trait_weight P.rules.trait_rarities (L ++ ":" ++ t))
      (d.pick i) (d.pickIdx i) hopt
    rw [hc] at hsome
    simp at hsome

/-- Under rarity 100, presence draws below 1, no exclusion pairs and the
inclusion invariant, the layer loop leaves every layer with catalog traits
selected after its own turn. -/
theorem select_layer_selects (P : RunParams) (d : Draws) (i : Nat)
    (L : String) (st : SelState) (hinv : inclusion_inv P st)
    (hR : (dict_get P.rules.layer_rarities L).getD 100 = 100)
    (hE : P.rules.exclude_pairs = [])
    (hD : d.presence i < 1)
    (hopt : (dict_get P.all_traits L).getD [] ≠ []) :
    (dict_get (select_layer P d i L st).selected L).isSome := by
  unfold select_layer
  rw [if_neg hopt]
  have hnC : ¬((dict_get st.forced_selection L).isSome = false ∧
      Rat.divInt ((dict_get P.rules.layer_rarities L).getD 100) 100 <
        d.presence i) := by
    rintro ⟨_, hlt⟩
    rw [hR] at hlt
    have h1 : Rat.divInt 100 100 = 1 := by decide
    rw [h1] at hlt
    exact absurd hlt (not_lt.mpr (le_of_lt hD))
  rw [if_neg hnC]
  cases hc : chosen_for P d i L st ((dict_get P.all_traits L).getD []) with
  | some t =>
    show (dict_get (dict_set st.selected L t) L).isSome
    rw [dict_get_set_self]
    rfl
  | none =>
    cases hforced : dict_get st.forced_selection L with
    | some t =>
      unfold chosen_for at hc
      rw [hforced] at hc
      exact Option.noConfusion hc
    | none =>
      exact chosen_for_none_selected P d i L st hinv hE hopt hforced hc

theorem c5_fold (P : RunParams) (d : Draws)
    (hR : ∀ L, (dict_get P.rules.layer_rarities L).getD 100 = 100)
    (hE : P.rules.exclude_pairs = [])
    (hD : ∀ i, 0 ≤ d.presence i ∧ d.presence i < 1) :
    ∀ (lp : List (Nat × String)) (st : SelState), inclusion_inv P st →
      ∀ iL ∈ lp, (dict_get P.all_traits iL.2).getD [] ≠ [] →
        (dict_get (sel_fold P d lp st).selected iL.2).isSome := by
  intro lp
  induction lp with
  | nil => intro st _ iL hmem; cases hmem
  | cons hd tl ih =>
    intro st hinv iL hmem hopt
    rw [sel_fold_cons]
    rcases List.mem_cons.mp hmem with heq | htail
    · subst heq
      apply sel_fold_selected_mono
      exact select_layer_selects P d iL.1 iL.2 st hinv (hR _) hE (hD _).2 hopt
    · exact ih (select_layer P d hd.1 hd.2 st)
        (select_layer_inclusion_inv P d hd.1 hd.2 st hinv) iL htail hopt

theorem exists_enumFrom_of_mem {α : Type} (L : α) :
    ∀ (l : List α) (n : Nat), L ∈ l → ∃ i, (i, L) ∈ List.enumFrom n l := by
  intro l
  induction l with
  | nil => intro n h; cases h
  | cons a as ih =>
    intro n h
    rcases List.mem_cons.mp h with heq | htail
    · subst heq
      exact ⟨n, List.mem_cons_self _ _⟩
    · obtain ⟨i, hi⟩ := ih (n + 1) htail
      exact ⟨i, List.mem_cons_of_mem _ hi⟩

/-! ### Skipping layers -/

theorem select_layer_skip (P : RunParams) (d : Draws) (i : Nat) (L : String)
    (st : SelState) (hforced : dict_get st.forced_selection L = none)
    (hD : Rat.divInt ((dict_get P.rules.layer_rarities L).getD 100) 100 <
      d.presence i) :
    select_layer P d i L st = st := by
  unfold select_layer
  split
  · rfl
  · rw [if_pos ⟨by rw [hforced]; rfl, hD⟩]

theorem select_layer_preserves_none (P : RunParams) (d : Draws) (i : Nat)
    (L' : String) (st : SelState) (L : String) (hne : L' ≠ L)
    (hT : ∀ p ∈ P.rules.include_pairs, ∀ q, split_key p.2 = some q → q.1 ≠ L)
    (hsel : dict_get st.selected L = none)
    (hfor : dict_get st.forced_selection L = none) :
    dict_get (select_layer P d i L' st).selected L = none ∧
      dict_get (select_layer P d i L' st).forced_selection L = none := by
  rcases select_layer_cases P d i L' st with heq | ⟨t, _, heq⟩ <;> rw [heq]
  · exact ⟨hsel, hfor⟩
  · rw [register_trait_def]
    constructor
    · show dict_get (dict_set st.selected L' t) L = none
      rw [dict_get_set_ne _ _ _ _ hne]
      exact hsel
    · show dict_get (update_forced P.rules.include_pairs (L' ++ ":" ++ t)
        (dict_set st.selected L' t) st.forced_selection) L = none
      rw [update_forced_get_other _ _ _ _ _ hT]
      exact hfor

/-- A layer that is never the target of an include pair and whose presence
draw always exceeds its rarity probability is absent from the edition's
selection. -/
theorem layer_absent (P : RunParams) (d : Draws) (L : String)
    (hT : ∀ p ∈ P.rules.include_pairs, ∀ q, split_key p.2 = some q → q.1 ≠ L)
    (hD : ∀ i, Rat.divInt ((dict_get P.rules.layer_rarities L).getD 100) 100 <
      d.presence i) :
    dict_get (select_edition P d).selected L = none := by
  suffices h : ∀ (lp : List (Nat × String)) (st : SelState),
      dict_get st.selected L = none → dict_get st.forced_selection L = none →
      dict_get (sel_fold P d lp st).selected L = none ∧
        dict_get (sel_fold P d lp st).forced_selection L = none by
    exact (h P.final_layer_order.enum ⟨[], [], []⟩ rfl rfl).1
  intro lp
  induction lp with
  | nil => intro st h1 h2; exact ⟨h1, h2⟩
  | cons hd tl ih =>
    intro st h1 h2
    rw [sel_fold_cons]
    by_cases hL : hd.2 = L
    · rw [hL, select_layer_skip P d hd.1 L st h2 (hD hd.1)]
      exact ih st h1 h2
    · obtain ⟨h1', h2'⟩ :=
        select_layer_preserves_none P d hd.1 hd.2 st L hL hT h1 h2
      exact ih _ h1' h2'

/-! ### The edition loop -/

theorem edition_step_failEarly (P : RunParams) (ds : Nat → Draws)
    (es : Nat → Eff) (st : RunState) (n : Nat) (h : es n = .failEarly) :
    edition_step P ds es st n =
      ⟨st.generated_dna, bump st.stats .error,
       st.records ++ [⟨n, edition_dna P ds n, .error⟩]⟩ := by
  unfold edition_step edition_cat edition_dna_set
  rw [if_pos h, if_pos h]

theorem edition_step_dup (P : RunParams) (ds : Nat → Draws) (es : Nat → Eff)
    (st : RunState) (n : Nat) (h1 : es n ≠ .failEarly)
    (h2 : edition_dna P ds n ∈ st.generated_dna) :
    edition_step P ds es st n =
      ⟨st.generated_dna, bump st.stats .duplicate,
       st.records ++ [⟨n, edition_dna P ds n, .duplicate⟩]⟩ := by
  unfold edition_step edition_cat edition_dna_set
  rw [if_neg h1, if_pos h2, if_neg h1, if_pos h2]

theorem edition_step_ok (P : RunParams) (ds : Nat → Draws) (es : Nat → Eff)
    (st : RunState) (n : Nat) (h1 : es n = .ok)
    (h2 : edition_dna P ds n ∉ st.generated_dna) :
    edition_step P ds es st n =
      ⟨edition_dna P ds n :: st.generated_dna, bump st.stats .success,
       st.records ++ [⟨n, edition_dna P ds n, .success⟩]⟩ := by
  unfold edition_step edition_cat edition_dna_set
  have h1' : es n ≠ .failEarly := by rw [h1]; intro hc; exact Eff.noConfusion hc
  have h3 : es n ≠ .failCompose := by rw [h1]; intro hc; exact Eff.noConfusion hc
  rw [if_neg h1', if_neg h2, if_pos h1, if_neg h1', if_neg h2, if_neg h3]

theorem edition_step_failCompose (P : RunParams) (ds : Nat → Draws)
    (es : Nat → Eff) (st : RunState) (n : Nat) (h1 : es n = .failCompose)
    (h2 : edition_dna P ds n ∉ st.generated_dna) :
    edition_step P ds es st n =
      ⟨st.generated_dna, bump st.stats .error,
       st.records ++ [⟨n, edition_dna P ds n, .error⟩]⟩ := by
  unfold edition_step edition_cat edition_dna_set
  have h1' : es n ≠ .failEarly := by rw [h1]; intro hc; exact Eff.noConfusion hc
  have h3 : es n ≠ .ok := by rw [h1]; intro hc; exact Eff.noConfusion hc
  rw [if_neg h1', if_neg h2, if_neg h3, if_neg h1', if_neg h2, if_pos h1]

theorem edition_step_failLate (P : RunParams) (ds : Nat → Draws)
    (es : Nat → Eff) (st : RunState) (n : Nat) (h1 : es n = .failLate)
    (h2 : edition_dna P ds n ∉ st.generated_dna) :
    edition_step P ds es st n =
      ⟨edition_dna P ds n :: st.generated_dna, bump st.stats .error,
       st.records ++ [⟨n, edition_dna P ds n, .error⟩]⟩ := by
  unfold edition_step edition_cat edition_dna_set
  have h1' : es n ≠ .failEarly := by rw [h1]; intro hc; exact Eff.noConfusion hc
  have h3 : es n ≠ .ok := by rw [h1]; intro hc; exact Eff.noConfusion hc
  have h4 : es n ≠ .failCompose := by rw [h1]; intro hc; exact Eff.noConfusion hc
  rw [if_neg h1', if_neg h2, if_neg h3, if_neg h1', if_neg h2, if_neg h4]

theorem run_fold_cons (P : RunParams) (ds : Nat → Draws) (es : Nat → Eff)
    (n : Nat) (l : List Nat) (st : RunState) :
    run_fold P ds es (n :: l) st =
      run_fold P ds es l (edition_step P ds es st n) := rfl

/-- Each edition appends exactly one record carrying its number. -/
theorem edition_step_records (P : RunParams) (ds : Nat → Draws)
    (es : Nat → Eff) (st : RunState) (n : Nat) :
    ∃ cat, (edition_step P ds es st n).records =
      st.records ++ [⟨n, edition_dna P ds n, cat⟩] := ⟨_, rfl⟩

theorem edition_step_dna_mono (P : RunParams) (ds : Nat → Draws)
    (es : Nat → Eff) (st : RunState) (n : Nat) (x : String)
    (h : x ∈ st.generated_dna) :
    x ∈ (edition_step P ds es st n).generated_dna := by
  unfold edition_step edition_dna_set
  split
  · exact h
  · split
    · exact h
    · split
      · exact h
      · exact List.mem_cons_of_mem _ h

/-- Stats counters agree with the per-category record counts. -/
def stats_ok (st : RunState) : Prop :=
  st.stats.success = st.records.countP (fun r => decide (r.cat = .success)) ∧
  st.stats.duplicates =
    st.records.countP (fun r => decide (r.cat = .duplicate)) ∧
  st.stats.errors = st.records.countP (fun r => decide (r.cat = .error))

theorem bump_stats_ok (st : RunState) (c : Category) (dnaL : List String)
    (n : Nat) (dnaV : String) (h : stats_ok st) :
    stats_ok ⟨dnaL, bump st.stats c, st.records ++ [⟨n, dnaV, c⟩]⟩ := by
  obtain ⟨hs, hd, he⟩ := h
  cases c <;>
    simp_all [stats_ok, bump, List.countP_append, List.countP_cons,
      List.countP_nil]

theorem edition_step_stats_ok (P : RunParams) (ds : Nat → Draws)
    (es : Nat → Eff) (st : RunState) (n : Nat) (h : stats_ok st) :
    stats_ok (edition_step P ds es st n) := by
  by_cases h1 : es n = .failEarly
  · rw [edition_step_failEarly P ds es st n h1]
    exact bump_stats_ok st .error _ n _ h
  · by_cases h2 : edition_dna P ds n ∈ st.generated_dna
    · rw [edition_step_dup P ds es st n h1 h2]
      exact bump_stats_ok st .duplicate _ n _ h
    · cases he : es n with
      | failEarly => exact absurd he h1
      | ok =>
        rw [edition_step_ok P ds es st n he h2]
        exact bump_stats_ok st .success _ n _ h
      | failCompose =>
        rw [edition_step_failCompose P ds es st n he h2]
        exact bump_stats_ok st .error _ n _ h
      | failLate =>
        rw [edition_step_failLate P ds es st n he h2]
        exact bump_stats_ok st .error _ n _ h

theorem run_fold_stats_ok (P : RunParams) (ds : Nat → Draws) (es : Nat → Eff)
    (l : List Nat) (st : RunState) (h : stats_ok st) :
    stats_ok (run_fold P ds es l st) := by
  induction l generalizing st with
  | nil => exact h
  | cons n ns ih =>
    rw [run_fold_cons]
    exact ih _ (edition_step_stats_ok P ds es st n h)

theorem run_fold_records_nums (P : RunParams) (ds : Nat → Draws)
    (es : Nat → Eff) (l : List Nat) (st : RunState) :
    (run_fold P ds es l st).records.map (fun r => r.num) =
      st.records.map (fun r => r.num) ++ l := by
  induction l generalizing st with
  | nil => simp [run_fold]
  | cons n ns ih =>
    rw [run_fold_cons, ih]
    obtain ⟨cat, hrec⟩ := edition_step_records P ds es st n
    rw [hrec]
    simp

theorem countP_cat_partition (recs : List EdRecord) :
    recs.countP (fun r => decide (r.cat = .success)) +
      recs.countP (fun r => decide (r.cat = .duplicate)) +
      recs.countP (fun r => decide (r.cat = .error)) = recs.length := by
  induction recs with
  | nil => rfl
  | cons r rs ih =>
    rcases r with ⟨n, dna, cat⟩
    cases cat <;> simp [List.countP_cons] <;> omega

/-- The DNA of every accepted edition, and of every edition that failed
after `generated_dna.add`, is in the DNA set. -/
def dna_known (es : Nat → Eff) (st : RunState) : Prop :=
  ∀ r ∈ st.records,
    (r.cat = .success ∨ (es r.num = .failLate ∧ r.cat = .error)) →
    r.dna ∈ st.generated_dna

/-- Accepted editions carry pairwise distinct DNAs. -/
def dna_distinct (st : RunState) : Prop :=
  st.records.Pairwise
    (fun r1 r2 => r1.cat = .success → r2.cat = .success → r1.dna ≠ r2.dna)

/-- Once an edition's DNA entered the set, every later edition that reaches
the duplicate check with the same DNA is classified as a duplicate. -/
def later_dup (es : Nat → Eff) (st : RunState) : Prop :=
  ∀ r1 ∈ st.records, ∀ r2 ∈ st.records,
    (r1.cat = .success ∨ (es r1.num = .failLate ∧ r1.cat = .error)) →
    r1.num < r2.num → r2.dna = r1.dna → es r2.num ≠ .failEarly →
    r2.cat = .duplicate

/-- Only a clean effect stream can yield a success. -/
def cat_consistent (es : Nat → Eff) (st : RunState) : Prop :=
  ∀ r ∈ st.records, r.cat = .success → es r.num = .ok

theorem edition_step_dna_known (P : RunParams) (ds : Nat → Draws)
    (es : Nat → Eff) (st : RunState) (n : Nat) (h : dna_known es st) :
    dna_known es (edition_step P ds es st n) := by
  have hmono := edition_step_dna_mono P ds es st n
  by_cases h1 : es n = .failEarly
  · rw [edition_step_failEarly P ds es st n h1] at hmono ⊢
    intro r hr hcat
    rcases List.mem_append.mp hr with hold | hnew
    · exact h r hold hcat
    · have hrn : r = ⟨n, edition_dna P ds n, .error⟩ := by simpa using hnew
      rw [hrn] at hcat
      rcases hcat with hs | ⟨hl, _⟩
      · exact absurd hs (by simp)
      · rw [show (⟨n, edition_dna P ds n, .error⟩ : EdRecord).num = n from rfl]
          at hl
        rw [h1] at hl
        exact absurd hl (by simp)
  · by_cases h2 : edition_dna P ds n ∈ st.generated_dna
    · rw [edition_step_dup P ds es st n h1 h2] at hmono ⊢
      intro r hr hcat
      rcases List.mem_append.mp hr with hold | hnew
      · exact h r hold hcat
      · have hrn : r = ⟨n, edition_dna P ds n, .duplicate⟩ := by simpa using hnew
        rw [hrn] at hcat
        rcases hcat with hs | ⟨_, he⟩
        · exact absurd hs (by simp)
        · exact absurd he (by simp)
    · cases he : es n with
      | failEarly => exact absurd he h1
      | ok =>
        rw [edition_step_ok P ds es st n he h2]
        intro r hr hcat
        rcases List.mem_append.mp hr with hold | hnew
        · exact List.mem_cons_of_mem _ (h r hold hcat)
        · have hrn : r = ⟨n, edition_dna P ds n, .success⟩ := by simpa using hnew
          rw [hrn]
          exact List.mem_cons_self _ _
      | failCompose =>
        rw [edition_step_failCompose P ds es st n he h2]
        intro r hr hcat
        rcases List.mem_append.mp hr with hold | hnew
        · exact h r hold hcat
        · have hrn : r = ⟨n, edition_dna P ds n, .error⟩ := by simpa using hnew
          rw [hrn] at hcat
          rcases hcat with hs | ⟨hl, _⟩
          · exact absurd hs (by simp)
          · rw [show (⟨n, edition_dna P ds n, .error⟩ : EdRecord).num = n from rfl]
              at hl
            rw [he] at hl
            exact absurd hl (by simp)
      | failLate =>
        rw [edition_step_failLate P ds es st n he h2]
        intro r hr hcat
        rcases List.mem_append.mp hr with hold | hnew
        · exact List.mem_cons_of_mem _ (h r hold hcat)
        · have hrn : r = ⟨n, edition_dna P ds n, .error⟩ := by simpa using hnew
          rw [hrn]
          exact List.mem_cons_self _ _

theorem edition_step_dna_distinct (P : RunParams) (ds : Nat → Draws)
    (es : Nat → Eff) (st : RunState) (n : Nat) (hknown : dna_known es st)
    (h : dna_distinct st) : dna_distinct (edition_step P ds es st n) := by
  have hstep : ∃ cat, (edition_step P ds es st n).records =
      st.records ++ [⟨n, edition_dna P ds n, cat⟩] :=
    edition_step_records P ds es st n
  obtain ⟨cat, hrec⟩ := hstep
  unfold dna_distinct
  rw [hrec]
  rw [List.pairwise_append]
  refine ⟨h, List.pairwise_singleton _ _, ?_⟩
  intro r1 hr1 r2 hr2 hs1 hs2
  have hr2' : r2 = ⟨n, edition_dna P ds n, cat⟩ := by simpa using hr2
  rw [hr2'] at hs2
  -- the new record is a success only in the `ok`-and-fresh branch
  by_cases h1 : es n = .failEarly
  · rw [edition_step_failEarly P ds es st n h1] at hrec
    have : cat = .error := by
      have := (List.append_cancel_left hrec.symm)
      simpa using this
    rw [this] at hs2
    exact absurd hs2 (by simp)
  · by_cases h2 : edition_dna P ds n ∈ st.generated_dna
    · rw [edition_step_dup P ds es st n h1 h2] at hrec
      have : cat = .duplicate := by
        have := (List.append_cancel_left hrec.symm)
        simpa using this
      rw [this] at hs2
      exact absurd hs2 (by simp)
    · -- fresh DNA: old successes are in the set, the new DNA is not
      have hin := hknown r1 hr1 (Or.inl hs1)
      have : r1.dna ≠ edition_dna P ds n := by
        intro hcontra
        rw [hcontra] at hin
        exact h2 hin
      rw [hr2']
      exact this

theorem edition_step_later_dup (P : RunParams) (ds : Nat → Draws)
    (es : Nat → Eff) (st : RunState) (n : Nat)
    (hub : ∀ r ∈ st.records, r.num < n) (hknown : dna_known es st)
    (h : later_dup es st) : later_dup es (edition_step P ds es st n) := by
  obtain ⟨cat, hrec⟩ := edition_step_records P ds es st n
  unfold later_dup
  rw [hrec]
  intro r1 hr1 r2 hr2 hcat1 hlt hdna hne
  rcases List.mem_append.mp hr1 with hold1 | hnew1
  · rcases List.mem_append.mp hr2 with hold2 | hnew2
    · exact h r1 hold1 r2 hold2 hcat1 hlt hdna hne
    · -- r2 is the new record: its DNA equals a DNA already in the set
      have hr2' : r2 = ⟨n, edition_dna P ds n, cat⟩ := by simpa using hnew2
      have hin : edition_dna P ds n ∈ st.generated_dna := by
        have := hknown r1 hold1 hcat1
        rw [hr2'] at hdna
        simpa [← hdna] using this
      have hne' : es n ≠ .failEarly := by
        rw [hr2'] at hne
        exact hne
      rw [edition_step_dup P ds es st n hne' hin] at hrec
      have hcat : cat = .duplicate := by
        have := (List.append_cancel_left hrec.symm)
        simpa using this
      rw [hr2', hcat]
  · -- r1 is the new record: every other record has a smaller number
    have hr1' : r1 = ⟨n, edition_dna P ds n, cat⟩ := by simpa using hnew1
    rcases List.mem_append.mp hr2 with hold2 | hnew2
    · have := hub r2 hold2
      rw [hr1'] at hlt
      exact absurd hlt (by simp; omega)
    · have hr2' : r2 = ⟨n, edition_dna P ds n, cat⟩ := by simpa using hnew2
      rw [hr1', hr2'] at hlt
      exact absurd hlt (by simp)

theorem edition_step_cat_consistent (P : RunParams) (ds : Nat → Draws)
    (es : Nat → Eff) (st : RunState) (n : Nat) (h : cat_consistent es st) :
    cat_consistent es (edition_step P ds es st n) := by
  obtain ⟨cat, hrec⟩ := edition_step_records P ds es st n
  unfold cat_consistent
  rw [hrec]
  intro r hr hcat
  rcases List.mem_append.mp hr with hold | hnew
  · exact h r hold hcat
  · have hr' : r = ⟨n, edition_dna P ds n, cat⟩ := by simpa using hnew
    rw [hr'] at hcat ⊢
    by_cases h1 : es n = .failEarly
    · rw [edition_step_failEarly P ds es st n h1] at hrec
      have : cat = .error := by
        have := (List.append_cancel_left hrec.symm)
        simpa using this
      rw [this] at hcat
      exact absurd hcat (by simp)
    · by_cases h2 : edition_dna P ds n ∈ st.generated_dna
      · rw [edition_step_dup P ds es st n h1 h2] at hrec
        have : cat = .duplicate := by
          have := (List.append_cancel_left hrec.symm)
          simpa using this
        rw [this] at hcat
        exact absurd hcat (by simp)
      · cases he : es n with
        | failEarly => exact absurd he h1
        | ok => rfl
        | failCompose =>
          rw [edition_step_failCompose P ds es st n he h2] at hrec
          have : cat = .error := by
            have := (List.append_cancel_left hrec.symm)
            simpa using this
          rw [this] at hcat
          exact absurd hcat (by simp)
        | failLate =>
          rw [edition_step_failLate P ds es st n he h2] at hrec
          have : cat = .error := by
            have := (List.append_cancel_left hrec.symm)
            simpa using this
          rw [this] at hcat
          exact absurd hcat (by simp)

theorem edition_step_num_bound (P : RunParams) (ds : Nat → Draws)
    (es : Nat → Eff) (st : RunState) (n m : Nat) (hnm : n < m)
    (h : ∀ r ∈ st.records, r.num < m) :
    ∀ r ∈ (edition_step P ds es st n).records, r.num < m := by
  obtain ⟨cat, hrec⟩ := edition_step_records P ds es st n
  rw [hrec]
  intro r hr
  rcases List.mem_append.mp hr with hold | hnew
  · exact h r hold
  · have hr' : r = ⟨n, edition_dna P ds n, cat⟩ := by simpa using hnew
    rw [hr']
    exact hnm

theorem run_fold_run_inv (P : RunParams) (ds : Nat → Draws) (es : Nat → Eff) :
    ∀ (l : List Nat) (st : RunState), l.Pairwise (· < ·) →
      (∀ r ∈ st.records, ∀ n ∈ l, r.num < n) →
      dna_known es st → dna_distinct st → later_dup es st →
      cat_consistent es st →
      (dna_known es (run_fold P ds es l st) ∧
        dna_distinct (run_fold P ds es l st) ∧
        later_dup es (run_fold P ds es l st) ∧
        cat_consistent es (run_fold P ds es l st)) := by
  intro l
  induction l with
  | nil => intro st _ _ h1 h2 h3 h4; exact ⟨h1, h2, h3, h4⟩
  | cons n ns ih =>
    intro st hpair hub h1 h2 h3 h4
    rw [run_fold_cons]
    have hpair' := (List.pairwise_cons.mp hpair).2
    have hlt : ∀ m ∈ ns, n < m := (List.pairwise_cons.mp hpair).1
    have hub_n : ∀ r ∈ st.records, r.num < n := fun r hr =>
      hub r hr n (List.mem_cons_self _ _)
    have hub' : ∀ r ∈ (edition_step P ds es st n).records, ∀ m ∈ ns,
        r.num < m := by
      intro r hr m hm
      exact edition_step_num_bound P ds es st n m (hlt m hm)
        (fun r' hr' => hub r' hr' m (List.mem_cons_of_mem _ hm)) r hr
    exact ih (edition_step P ds es st n) hpair' hub'
      (edition_step_dna_known P ds es st n h1)
      (edition_step_dna_distinct P ds es st n h1 h2)
      (edition_step_later_dup P ds es st n hub_n h1 h3)
      (edition_step_cat_consistent P ds es st n h4)

theorem run_generation_inv (P : RunParams) (N : Nat) (ds : Nat → Draws)
    (es : Nat → Eff) :
    dna_known es (run_generation P N ds es) ∧
      dna_distinct (run_generation P N ds es) ∧
      later_dup es (run_generation P N ds es) ∧
      cat_consistent es (run_generation P N ds es) := by
  apply run_fold_run_inv P ds es (List.range' 1 N) ⟨[], ⟨0, 0, 0⟩, []⟩
  · exact List.pairwise_lt_range' 1 N
  · intro r hr; cases hr
  · intro r hr; cases hr
  · exact List.Pairwise.nil
  · intro r hr; cases hr
  · intro r hr; cases hr

/-! ### Merging mapping sets -/

theorem overlay_dict_cons (d : List (String × Int)) (kv : String × Int)
    (rest : List (String × Int)) :
    overlay_dict d (kv :: rest) = overlay_dict (dict_set d kv.1 kv.2) rest :=
  rfl

theorem overlay_dict_lookup (items d : List (String × Int)) (key : String) :
    dict_get (overlay_dict d items) key =
      opt_or (lookup_last items key) (dict_get d key) := by
  induction items generalizing d with
  | nil => rfl
  | cons kv rest ih =>
    rw [overlay_dict_cons, ih]
    show opt_or (lookup_last rest key) (dict_get (dict_set d kv.1 kv.2) key) =
      opt_or (opt_or (lookup_last rest key)
        (if kv.1 = key then some kv.2 else none)) (dict_get d key)
    rw [opt_or_assoc, dict_get_set]
    by_cases hk : kv.1 = key <;> simp [hk, opt_or]

theorem merge_fold_spec (saved : String → Option MappingSet) :
    ∀ (names : List String) (acc : MergedRules),
      (names.foldl (ms_step saved) acc).include_pairs =
        acc.include_pairs ++
          (names.filterMap saved).flatMap (fun m => m.include_pairs) ∧
      (names.foldl (ms_step saved) acc).exclude_pairs =
        acc.exclude_pairs ++
          (names.filterMap saved).flatMap (fun m => m.exclude_pairs) ∧
      (∀ k, dict_get (names.foldl (ms_step saved) acc).trait_rarities k =
        opt_or
          (spec_last_writer_wins MappingSet.rarities (names.filterMap saved) k)
          (dict_get acc.trait_rarities k)) ∧
      (∀ k, dict_get (names.foldl (ms_step saved) acc).layer_rarities k =
        opt_or
          (spec_last_writer_wins MappingSet.layer_rarities
            (names.filterMap saved) k)
          (dict_get acc.layer_rarities k)) := by
  intro names
  induction names with
  | nil =>
    intro acc
    refine ⟨by simp, by simp, fun k => rfl, fun k => rfl⟩
  | cons name rest ih =>
    intro acc
    rw [List.foldl_cons]
    cases hsv : saved name with
    | none =>
      have hstep : ms_step saved acc name = acc := by
        unfold ms_step
        rw [hsv]
      rw [hstep]
      have hfm : (name :: rest).filterMap saved = rest.filterMap saved := by
        rw [List.filterMap_cons, hsv]
      rw [hfm]
      exact ih acc
    | some m =>
      have hstep : ms_step saved acc name =
          ⟨overlay_dict acc.trait_rarities m.rarities,
           overlay_dict acc.layer_rarities m.layer_rarities,
           acc.include_pairs ++ m.include_pairs,
           acc.exclude_pairs ++ m.exclude_pairs⟩ := by
        unfold ms_step
        rw [hsv]
      have hfm : (name :: rest).filterMap saved = m :: rest.filterMap saved := by
        rw [List.filterMap_cons, hsv]
      rw [hstep, hfm]
      obtain ⟨hinc, hexc, htr, hlr⟩ := ih
        ⟨overlay_dict acc.trait_rarities m.rarities,
         overlay_dict acc.layer_rarities m.layer_rarities,
         acc.include_pairs ++ m.include_pairs,
         acc.exclude_pairs ++ m.exclude_pairs⟩
      refine ⟨?_, ?_, ?_, ?_⟩
      · rw [hinc]
        simp [List.append_assoc]
      · rw [hexc]
        simp [List.append_assoc]
      · intro k
        rw [htr k]
        show opt_or _ (dict_get (overlay_dict acc.trait_rarities m.rarities) k) = _
        rw [overlay_dict_lookup]
        rw [← opt_or_assoc]
        rfl
      · intro k
        rw [hlr k]
        show opt_or _ (dict_get (overlay_dict acc.layer_rarities m.layer_rarities) k) = _
        rw [overlay_dict_lookup]
        rw [← opt_or_assoc]
        rfl

theorem merge_congr_fold (names : List String)
    (saved saved2 : String → Option MappingSet)
    (h : ∀ nm ∈ names, saved nm = saved2 nm) :
    ∀ acc, names.foldl (ms_step saved) acc = names.foldl (ms_step saved2) acc := by
  induction names with
  | nil => intro acc; rfl
  | cons name rest ih =>
    intro acc
    show rest.foldl (ms_step saved) (ms_step saved acc name) = _
    have hstep : ms_step saved acc name = ms_step saved2 acc name := by
      unfold ms_step
      rw [h name (List.mem_cons_self _ _)]
    rw [hstep]
    exact ih (fun nm hnm => h nm (List.mem_cons_of_mem _ hnm)) _

/-! ### The forced-selection override -/

/-- The step of `last_forced_for`: the trait the pair would force for the
target layer `lb`, falling back to the accumulated value. -/
def lf_step (key : String) (selected : List (String × String)) (lb : String)
    (acc : Option String) (p : String × String) : Option String :=
  if p.1 = key then
    match split_key p.2 with
    | some q =>
      if q.1 = lb ∧ dict_get selected q.1 = none then some q.2 else acc
    | none => acc
  else acc

/-- The trait forced onto target layer `lb` by the LAST matching include
pair during the scan for the just-selected `key` (matching means: source
equals `key`, target parses, target layer is `lb` and not yet selected). -/
def last_forced_for (pairs : List (String × String)) (key : String)
    (selected : List (String × String)) (lb : String) : Option String :=
  pairs.foldl (lf_step key selected lb) none

theorem uf_lookup_aux (key : String) (sel : List (String × String))
    (lb : String) (f0 : List (String × String)) :
    ∀ (pairs : List (String × String)) (f : List (String × String))
      (acc : Option String),
      dict_get f lb = opt_or acc (dict_get f0 lb) →
      dict_get (pairs.foldl (uf_step key sel) f) lb =
        opt_or (pairs.foldl (lf_step key sel lb) acc) (dict_get f0 lb) := by
  intro pairs
  induction pairs with
  | nil => intro f acc h; exact h
  | cons p ps ih =>
    intro f acc h
    show dict_get (ps.foldl (uf_step key sel) (uf_step key sel f p)) lb =
      opt_or (ps.foldl (lf_step key sel lb) (lf_step key sel lb acc p))
        (dict_get f0 lb)
    apply ih
    unfold uf_step lf_step
    by_cases h1 : p.1 = key
    · rw [if_pos h1, if_pos h1]
      cases hq : split_key p.2 with
      | none => exact h
      | some q =>
        simp only
        by_cases h2 : dict_get sel q.1 = none
        · by_cases h3 : q.1 = lb
          · rw [if_pos h2, if_pos ⟨h3, h2⟩]
            subst h3
            rw [dict_get_set_self]
            rfl
          · rw [if_pos h2, if_neg (fun hc => h3 hc.1)]
            rw [dict_get_set_ne _ _ _ _ h3]
            exact h
        · rw [if_neg h2, if_neg (fun hc => h2 hc.2)]
          exact h
    · rw [if_neg h1, if_neg h1]
      exact h

theorem update_forced_lookup (pairs : List (String × String)) (key : String)
    (sel f : List (String × String)) (lb : String) :
    dict_get (update_forced pairs key sel f) lb =
      opt_or (last_forced_for pairs key sel lb) (dict_get f lb) :=
  uf_lookup_aux key sel lb f pairs f none rfl

theorem last_forced_for_append (pairs : List (String × String))
    (p : String × String) (key : String) (sel : List (String × String))
    (lb : String) :
    last_forced_for (pairs ++ [p]) key sel lb =
      lf_step key sel lb (last_forced_for pairs key sel lb) p := by
  unfold last_forced_for
  rw [List.foldl_append]
  rfl

/-! ### Exclusion pairs without inclusion forcing -/

theorem is_excluded_eq_false_iff (c : String) (keys : List String)
    (ex : List (String × String)) :
    is_excluded_by_pairs c keys ex = false ↔
      ∀ sk ∈ keys, ∀ p ∈ ex,
        ¬((c = p.1 ∧ sk = p.2) ∨ (c = p.2 ∧ sk = p.1)) := by
  rw [Bool.eq_false_iff]
  simp [is_excluded_by_pairs, List.any_eq_true, not_or]

/-- The keys list records every binding of the selected dict. -/
def sel_keys_inv (st : SelState) : Prop :=
  ∀ L t, dict_get st.selected L = some t → (L ++ ":" ++ t) ∈ st.selected_keys

/-- No exclude pair with distinct members has both members selected. -/
def excl_inv (P : RunParams) (st : SelState) : Prop :=
  ∀ p ∈ P.rules.exclude_pairs, p.1 ≠ p.2 →
    ¬(p.1 ∈ st.selected_keys ∧ p.2 ∈ st.selected_keys)

theorem select_layer_keys_inv (P : RunParams) (d : Draws) (i : Nat)
    (L : String) (st : SelState) (hk : sel_keys_inv st) :
    sel_keys_inv (select_layer P d i L st) := by
  rcases select_layer_cases P d i L st with heq | ⟨t, _, heq⟩ <;> rw [heq]
  · exact hk
  · rw [register_trait_def]
    intro L2 t2 hget
    show (L2 ++ ":" ++ t2) ∈ st.selected_keys ++ [L ++ ":" ++ t]
    rw [dict_get_set] at hget
    by_cases hL : L = L2
    · rw [if_pos hL] at hget
      cases hget
      rw [hL]
      exact List.mem_append_right _ (List.mem_singleton.mpr rfl)
    · rw [if_neg hL] at hget
      exact List.mem_append_left _ (hk L2 t2 hget)

theorem chosen_for_no_includes (P : RunParams) (d : Draws) (i : Nat)
    (L : String) (st : SelState) (options : List String) (t : String)
    (hI : P.rules.include_pairs = []) (hff : st.forced_selection = [])
    (hc : chosen_for P d i L st options = some t) :
    t ∈ options ∧
      is_excluded_by_pairs (L ++ ":" ++ t) st.selected_keys
        P.rules.exclude_pairs = false := by
  unfold chosen_for at hc
  rw [hff, hI] at hc
  simp only [dict_get, find_required, List.findSome?_nil] at hc
  split at hc
  · exact Option.noConfusion hc
  · have hmem := weighted_choice_mem _ _ _ _ _ hc
    obtain ⟨hopt, hpred⟩ := List.mem_filter.mp hmem
    refine ⟨hopt, ?_⟩
    simpa using hpred

theorem select_layer_excl_inv (P : RunParams) (d : Draws) (i : Nat)
    (L : String) (st : SelState) (hI : P.rules.include_pairs = [])
    (hff : st.forced_selection = []) (hx : excl_inv P st) :
    (select_layer P d i L st).forced_selection = [] ∧
      excl_inv P (select_layer P d i L st) := by
  rcases select_layer_cases P d i L st with heq | ⟨t, hc, heq⟩ <;> rw [heq]
  · exact ⟨hff, hx⟩
  · obtain ⟨hopt, hexcl⟩ := chosen_for_no_includes P d i L st _ t hI hff hc
    rw [register_trait_def]
    constructor
    · show update_forced P.rules.include_pairs (L ++ ":" ++ t)
        (dict_set st.selected L t) st.forced_selection = []
      rw [hI]
      exact hff
    · intro p hp hne hcontra
      obtain ⟨h1, h2⟩ := hcontra
      have hspec := (is_excluded_eq_false_iff _ _ _).mp hexcl
      rcases List.mem_append.mp h1 with h1o | h1n
      · rcases List.mem_append.mp h2 with h2o | h2n
        · exact hx p hp hne ⟨h1o, h2o⟩
        · -- p.2 is the new key, p.1 an old one
          have h2n' : p.2 = L ++ ":" ++ t := by simpa using h2n
          exact hspec p.1 h1o p hp (Or.inr ⟨h2n'.symm, rfl⟩)
      · have h1n' : p.1 = L ++ ":" ++ t := by simpa using h1n
        rcases List.mem_append.mp h2 with h2o | h2n
        · exact hspec p.2 h2o p hp (Or.inl ⟨h1n'.symm, rfl⟩)
        · have h2n' : p.2 = L ++ ":" ++ t := by simpa using h2n
          exact hne (h1n'.trans h2n'.symm)

theorem select_edition_keys_inv (P : RunParams) (d : Draws) :
    sel_keys_inv (select_edition P d) := by
  suffices h : ∀ (lp : List (Nat × String)) (st : SelState), sel_keys_inv st →
      sel_keys_inv (sel_fold P d lp st) by
    exact h P.final_layer_order.enum ⟨[], [], []⟩ (fun L t hget => by cases hget)
  intro lp
  induction lp with
  | nil => intro st h; exact h
  | cons hd tl ih =>
    intro st h
    rw [sel_fold_cons]
    exact ih _ (select_layer_keys_inv P d hd.1 hd.2 st h)

theorem select_edition_excl_inv (P : RunParams) (d : Draws)
    (hI : P.rules.include_pairs = []) : excl_inv P (select_edition P d) := by
  suffices h : ∀ (lp : List (Nat × String)) (st : SelState),
      st.forced_selection = [] → excl_inv P st →
      (sel_fold P d lp st).forced_selection = [] ∧
        excl_inv P (sel_fold P d lp st) by
    exact (h P.final_layer_order.enum ⟨[], [], []⟩ rfl
      (fun p hp hne hc => absurd hc.1 (List.not_mem_nil _))).2
  intro lp
  induction lp with
  | nil => intro st h1 h2; exact ⟨h1, h2⟩
  | cons hd tl ih =>
    intro st h1 h2
    rw [sel_fold_cons]
    obtain ⟨h1p, h2p⟩ := select_layer_excl_inv P d hd.1 hd.2 st hI h1 h2
    exact ih _ h1p h2p


/-! ### Concrete inputs used by counterexamples and witnesses -/

/-- Draw oracle returning 0 everywhere. -/
def zero_draws : Draws := ⟨fun _ => 0, fun _ => 0, fun _ => 0⟩

/-- Two layers, an exclusion pair and an inclusion pair over the same two
keys. -/
def cx3P : RunParams :=
  ⟨["A", "B"], [("A", ["Red"]), ("B", ["Blue"])],
   ⟨[], [], [("A:Red", "B:Blue")], [("A:Red", "B:Blue")]⟩⟩

/-- Two layers with an exclusion pair and no inclusion pairs. -/
def w3P : RunParams :=
  ⟨["A", "B"], [("A", ["Red"]), ("B", ["Blue", "Green"])],
   ⟨[], [], [], [("A:Red", "B:Blue")]⟩⟩

/-- Two include pairs with the same source key and the same target layer
but different target traits. -/
def cx4_pairs : List (String × String) :=
  [("A:Red", "B:Blue"), ("A:Red", "B:Green")]

/-- A run whose include pairs are `cx4_pairs`. -/
def cx4P : RunParams :=
  ⟨["A", "B"], [("A", ["Red"]), ("B", ["Blue", "Green"])],
   ⟨[], [], cx4_pairs, []⟩⟩

/-! ### C8: weighted choice -/

/-- C8: for a non-empty option list whose weights are all non-positive,
`_weighted_choice` returns the uniformly drawn element of the full option
list (never `none`); with some positive weight it returns an element of the
list, chosen by the accumulate-and-walk loop against a draw in
`[0, total)`. -/
theorem weighted_choice_spec (options : List String) (weights : List Int)
    (r : ℚ) (idx : Nat) :
    (options ≠ [] → (∀ w ∈ weights, w ≤ 0) →
      ∀ h : idx < options.length,
        weighted_choice options weights r idx = some (options.get ⟨idx, h⟩)) ∧
    (options ≠ [] → (∃ w ∈ weights, 0 < w) → 0 ≤ r →
      r < ((weights.filter (fun w => decide (0 < w))).sum : ℚ) →
      ∃ t ∈ options, weighted_choice options weights r idx = some t) := by
  constructor
  · intro hopt hnp h
    have hfil : weights.filter (fun w => decide (0 < w)) = [] := by
      apply List.filter_eq_nil_iff.mpr
      intro w hw
      simpa using not_lt.mpr (hnp w hw)
    unfold weighted_choice
    rw [hfil]
    rw [if_pos (by simp)]
    cases options with
    | nil => exact absurd rfl hopt
    | cons o os =>
      rw [Nat.mod_eq_of_lt h]
      rw [List.get?_eq_get h]
  · intro hopt hpos _ _
    have hs := weighted_choice_isSome options weights r idx hopt
    obtain ⟨t, ht⟩ := Option.isSome_iff_exists.mp hs
    exact ⟨t, weighted_choice_mem options weights r idx t ht, ht⟩

/-- C8 witness: both branches at concrete inputs. -/
theorem weighted_choice_spec_witness :
    ((["A", "B"] : List String) ≠ [] ∧ (∀ w ∈ ([-1, 0] : List Int), w ≤ 0) ∧
      1 < (["A", "B"] : List String).length ∧
      weighted_choice ["A", "B"] [-1, 0] 0 1 = some "B") ∧
    ((["A", "C"] : List String) ≠ [] ∧ (∃ w ∈ ([0, 5] : List Int), 0 < w) ∧
      (0 : ℚ) ≤ 3 ∧
      (3 : ℚ) < ((([0, 5] : List Int).filter (fun w => decide (0 < w))).sum : ℚ) ∧
      ∃ t ∈ (["A", "C"] : List String),
        weighted_choice ["A", "C"] [0, 5] 3 0 = some t) := by
  refine ⟨⟨by decide, by decide, by decide, ?_⟩,
    ⟨by decide, by decide, by decide, by decide, ?_⟩⟩
  · exact (weighted_choice_spec ["A", "B"] [-1, 0] 0 1).1 (by decide)
      (by decide) (by decide)
  · exact (weighted_choice_spec ["A", "C"] [0, 5] 3 0).2 (by decide)
      (by decide) (by decide) (by decide)

/-! ### C9: merging mapping sets -/

/-- C9: the merge of mapping sets processes names in list order; absent
names contribute no rules; pair lists are concatenations of the present
sets' pair lists in order, without deduplication; each rarity key holds the
last-writer-wins value over the present sets; and the result depends only
on the lookup's values at the listed names (determinism). -/
theorem merge_mapping_sets_spec (names : List String)
    (saved saved2 : String → Option MappingSet)
    (hagree : ∀ nm ∈ names, saved nm = saved2 nm) :
    (merge_mapping_sets names saved).include_pairs =
      (names.filterMap saved).flatMap (fun m => m.include_pairs) ∧
    (merge_mapping_sets names saved).exclude_pairs =
      (names.filterMap saved).flatMap (fun m => m.exclude_pairs) ∧
    (∀ k, dict_get (merge_mapping_sets names saved).trait_rarities k =
      spec_last_writer_wins MappingSet.rarities (names.filterMap saved) k) ∧
    (∀ k, dict_get (merge_mapping_sets names saved).layer_rarities k =
      spec_last_writer_wins MappingSet.layer_rarities
        (names.filterMap saved) k) ∧
    merge_mapping_sets names saved = merge_mapping_sets names saved2 := by
  obtain ⟨hinc, hexc, htr, hlr⟩ := merge_fold_spec saved names ⟨[], [], [], []⟩
  refine ⟨?_, ?_, ?_, ?_, ?_⟩
  · rw [show merge_mapping_sets names saved = names.foldl (ms_step saved)
      ⟨[], [], [], []⟩ from rfl, hinc]
    rfl
  · rw [show merge_mapping_sets names saved = names.foldl (ms_step saved)
      ⟨[], [], [], []⟩ from rfl, hexc]
    rfl
  · intro k
    rw [show merge_mapping_sets names saved = names.foldl (ms_step saved)
      ⟨[], [], [], []⟩ from rfl, htr k]
    exact opt_or_none_right _
  · intro k
    rw [show merge_mapping_sets names saved = names.foldl (ms_step saved)
      ⟨[], [], [], []⟩ from rfl, hlr k]
    exact opt_or_none_right _
  · exact merge_congr_fold names saved saved2 hagree _

/-- A first mapping set for the merge witness. -/
def w9m1 : MappingSet :=
  ⟨[("A:Red", 10), ("B:Blue", 20)], [("A", 50)], [("A:Red", "B:Blue")], []⟩

/-- A second mapping set for the merge witness, overriding one key. -/
def w9m2 : MappingSet :=
  ⟨[("A:Red", 70)], [], [("A:Red", "B:Blue")], [("X:1", "Y:2")]⟩

/-- A lookup holding the two witness mapping sets. -/
def w9sv : String → Option MappingSet :=
  fun nm => if nm = "s1" then some w9m1 else if nm = "s2" then some w9m2
    else none

/-- A lookup agreeing with `w9sv` on the witness names but not
elsewhere. -/
def w9sv2 : String → Option MappingSet :=
  fun nm => if nm = "zzz" then some w9m1 else w9sv nm

/-- C9 witness: the merge of `["s1", "missing", "s2"]` at concrete
lookups. -/
theorem merge_mapping_sets_spec_witness :
    (∀ nm ∈ (["s1", "missing", "s2"] : List String), w9sv nm = w9sv2 nm) ∧
    (merge_mapping_sets ["s1", "missing", "s2"] w9sv).include_pairs =
      ((["s1", "missing", "s2"].filterMap w9sv).flatMap
        (fun m => m.include_pairs)) ∧
    dict_get (merge_mapping_sets ["s1", "missing", "s2"] w9sv).trait_rarities
      "A:Red" = spec_last_writer_wins MappingSet.rarities
        (["s1", "missing", "s2"].filterMap w9sv) "A:Red" ∧
    merge_mapping_sets ["s1", "missing", "s2"] w9sv =
      merge_mapping_sets ["s1", "missing", "s2"] w9sv2 := by
  refine ⟨by decide, ?_, ?_, ?_⟩
  · exact (merge_mapping_sets_spec ["s1", "missing", "s2"] w9sv w9sv2
      (by decide)).1
  · exact (merge_mapping_sets_spec ["s1", "missing", "s2"] w9sv w9sv2
      (by decide)).2.2.1 "A:Red"
  · exact (merge_mapping_sets_spec ["s1", "missing", "s2"] w9sv w9sv2
      (by decide)).2.2.2.2

/-! ### C4: the forced-selection scan is not idempotent -/

/-- C4 counterexample: with two include pairs for source `A:Red` and target
layer `B`, the scan records the trait of the LAST matching pair (`Green`),
not the first (`Blue`); the full selection concurs.  This refutes the claim
that a later matching pair does not override an already-forced value. -/
theorem update_forced_override_cex :
    dict_get (update_forced cx4_pairs "A:Red" [("A", "Red")] []) "B" =
      some "Green" ∧
    dict_get (update_forced [("A:Red", "B:Blue")] "A:Red" [("A", "Red")] [])
      "B" = some "Blue" ∧
    "Green" ≠ "Blue" ∧
    dict_get (select_edition cx4P zero_draws).selected "B" = some "Green" := by
  decide

/-- C4 amended: during the post-selection scan for a just-selected source
key, a later matching pair for the same target layer DOES override the
previously recorded forced trait; the forced value for a target layer is
that of the last include pair whose source equals the key, whose target
parses to that layer, and whose target layer is not yet in `selected` (the
guard checks `selected`, not the forced dict). -/
theorem update_forced_last_match (pairs : List (String × String))
    (key : String) (sel f : List (String × String)) (lb : String)
    (p : String × String) :
    dict_get (update_forced pairs key sel f) lb =
      opt_or (last_forced_for pairs key sel lb) (dict_get f lb) ∧
    last_forced_for (pairs ++ [p]) key sel lb =
      lf_step key sel lb (last_forced_for pairs key sel lb) p :=
  ⟨update_forced_lookup pairs key sel f lb,
   last_forced_for_append pairs p key sel lb⟩

/-! ### C3: exclusion pairs are not enforced against inclusion forcing -/

/-- C3 counterexample: with exclusion pair `(A:Red, B:Blue)` and inclusion
pair `(A:Red, B:Blue)`, the first edition is accepted as a success and its
selection contains BOTH `A:Red` and `B:Blue` — the forced-selection path
never consults the exclusion pairs.  This refutes the claim for traits
selected through inclusion forcing. -/
theorem exclusion_violated_by_inclusion_cex :
    (run_generation cx3P 1 (fun _ => zero_draws) (fun _ => .ok)).stats =
      ⟨1, 0, 0⟩ ∧
    (run_generation cx3P 1 (fun _ => zero_draws) (fun _ => .ok)).records =
      [⟨1, "A:Red|B:Blue", .success⟩] ∧
    dict_get (select_edition cx3P zero_draws).selected "A" = some "Red" ∧
    dict_get (select_edition cx3P zero_draws).selected "B" = some "Blue" ∧
    ("A:Red", "B:Blue") ∈ cx3P.rules.exclude_pairs := by
  decide

/-- C3 amended: in a merged ruleset with NO inclusion pairs, no edition's
selection ever contains both members of an exclusion pair with distinct
members, however each trait came to be selected; accepted editions are a
subset of all editions, so the invariant holds for them in particular. -/
theorem exclusion_respected_without_inclusions (P : RunParams) (d : Draws)
    (hI : P.rules.include_pairs = []) (a b : String)
    (hab : (a, b) ∈ P.rules.exclude_pairs) (hne : a ≠ b) :
    ¬(a ∈ (select_edition P d).selected_keys ∧
        b ∈ (select_edition P d).selected_keys) ∧
    ∀ La ta Lb tb, a = La ++ ":" ++ ta → b = Lb ++ ":" ++ tb →
      ¬(dict_get (select_edition P d).selected La = some ta ∧
          dict_get (select_edition P d).selected Lb = some tb) := by
  have hx := select_edition_excl_inv P d hI (a, b) hab hne
  refine ⟨hx, ?_⟩
  rintro La ta Lb tb ha hb ⟨h1, h2⟩
  have hk := select_edition_keys_inv P d
  apply hx
  constructor
  · rw [ha]
    exact hk La ta h1
  · rw [hb]
    exact hk Lb tb h2

/-- C3 amended witness: a run with one exclusion pair and no inclusion
pairs never selects both `A:Red` and `B:Blue`; concretely, layer `B` falls
back to `Green`. -/
theorem exclusion_respected_without_inclusions_witness :
    w3P.rules.include_pairs = [] ∧
    ("A:Red", "B:Blue") ∈ w3P.rules.exclude_pairs ∧
    "A:Red" ≠ "B:Blue" ∧
    ¬("A:Red" ∈ (select_edition w3P zero_draws).selected_keys ∧
        "B:Blue" ∈ (select_edition w3P zero_draws).selected_keys) ∧
    dict_get (select_edition w3P zero_draws).selected "B" = some "Green" := by
  refine ⟨rfl, by decide, by decide, ?_, by decide⟩
  exact (exclusion_respected_without_inclusions w3P zero_draws rfl
    "A:Red" "B:Blue" (by decide) (by decide)).1


/-! ### C1 and C2: the orchestrator -/

/-- C1: accepted (successfully persisted) editions in one run carry
pairwise distinct DNA fingerprints; and an edition whose DNA is already in
the run's DNA set and that reaches the duplicate check is rejected as a
duplicate: counted in the duplicates counter, the DNA set left untouched,
no success recorded. -/
theorem run_generation_dna_unique (P : RunParams) (N : Nat)
    (ds : Nat → Draws) (es : Nat → Eff) :
    (∀ r1 ∈ (run_generation P N ds es).records,
      ∀ r2 ∈ (run_generation P N ds es).records,
      r1.cat = .success → r2.cat = .success → r1.num ≠ r2.num →
      r1.dna ≠ r2.dna) ∧
    (∀ (st : RunState) (n : Nat), edition_dna P ds n ∈ st.generated_dna →
      es n ≠ .failEarly →
      (edition_step P ds es st n).generated_dna = st.generated_dna ∧
      (edition_step P ds es st n).records =
        st.records ++ [⟨n, edition_dna P ds n, .duplicate⟩] ∧
      (edition_step P ds es st n).stats = bump st.stats .duplicate) := by
  constructor
  · intro r1 h1 r2 h2 hs1 hs2 hnum
    have hdist := (run_generation_inv P N ds es).2.1
    have hsym : Symmetric
        (fun r1 r2 : EdRecord =>
          r1.cat = .success → r2.cat = .success → r1.dna ≠ r2.dna) := by
      intro x y hxy hy hx heq
      exact hxy hx hy heq.symm
    have hne : r1 ≠ r2 := fun h => hnum (by rw [h])
    exact List.Pairwise.forall hsym hdist h1 h2 hne hs1 hs2
  · intro st n hmem hne
    rw [edition_step_dup P ds es st n hne hmem]
    exact ⟨rfl, rfl, rfl⟩

/-- One layer with two traits, used by the C1 witness. -/
def w1P : RunParams := ⟨["A"], [("A", ["X", "Y"])], ⟨[], [], [], []⟩⟩

/-- Draw oracle whose weighted-choice draw lands on the second trait. -/
def second_draws : Draws := ⟨fun _ => 0, fun _ => 150, fun _ => 0⟩

/-- Per-edition draws: edition 1 picks the first trait, edition 2 the
second. -/
def w1ds : Nat → Draws := fun n => if n = 1 then zero_draws else second_draws

/-- C1 witness: a 2-edition run with two distinct successes, and a
duplicate rejection at a concrete state. -/
theorem run_generation_dna_unique_witness :
    ((⟨1, "A:X", .success⟩ : EdRecord) ∈
        (run_generation w1P 2 w1ds (fun _ => .ok)).records ∧
      (⟨2, "A:Y", .success⟩ : EdRecord) ∈
        (run_generation w1P 2 w1ds (fun _ => .ok)).records ∧
      (1 : Nat) ≠ 2 ∧ "A:X" ≠ "A:Y") ∧
    (edition_dna w1P w1ds 1 ∈ (["A:X"] : List String) ∧
      (edition_step w1P w1ds (fun _ => .ok)
          ⟨["A:X"], ⟨0, 0, 0⟩, []⟩ 1).generated_dna = ["A:X"] ∧
      (edition_step w1P w1ds (fun _ => .ok)
          ⟨["A:X"], ⟨0, 0, 0⟩, []⟩ 1).records =
        [⟨1, "A:X", .duplicate⟩] ∧
      (edition_step w1P w1ds (fun _ => .ok)
          ⟨["A:X"], ⟨0, 0, 0⟩, []⟩ 1).stats = ⟨0, 1, 0⟩) := by
  constructor
  · refine ⟨by decide, by decide, by decide, ?_⟩
    exact (run_generation_dna_unique w1P 2 w1ds (fun _ => .ok)).1
      ⟨1, "A:X", .success⟩ (by decide) ⟨2, "A:Y", .success⟩ (by decide)
      (by decide) (by decide) (by decide)
  · have h := (run_generation_dna_unique w1P 2 w1ds (fun _ => .ok)).2
      ⟨["A:X"], ⟨0, 0, 0⟩, []⟩ 1 (by decide) (by decide)
    exact ⟨by decide, h.1, by rw [h.2.1]; decide, by rw [h.2.2]; decide⟩

/-- C2: every run returns a stats record whose three counters sum to the
requested edition count; each edition number yields exactly one record, in
order, and each counter equals the number of records of its category, so no
edition is double-counted and no condition aborts the loop. -/
theorem run_generation_stats_complete (P : RunParams) (N : Nat)
    (ds : Nat → Draws) (es : Nat → Eff) :
    (run_generation P N ds es).stats.success +
        (run_generation P N ds es).stats.duplicates +
        (run_generation P N ds es).stats.errors = N ∧
    (run_generation P N ds es).records.map (fun r => r.num) =
      List.range' 1 N ∧
    (run_generation P N ds es).records.length = N ∧
    (run_generation P N ds es).stats.success =
      (run_generation P N ds es).records.countP
        (fun r => decide (r.cat = .success)) ∧
    (run_generation P N ds es).stats.duplicates =
      (run_generation P N ds es).records.countP
        (fun r => decide (r.cat = .duplicate)) ∧
    (run_generation P N ds es).stats.errors =
      (run_generation P N ds es).records.countP
        (fun r => decide (r.cat = .error)) := by
  have hst : stats_ok (run_generation P N ds es) :=
    run_fold_stats_ok P ds es (List.range' 1 N) ⟨[], ⟨0, 0, 0⟩, []⟩
      ⟨rfl, rfl, rfl⟩
  have hnum : (run_generation P N ds es).records.map (fun r => r.num) =
      List.range' 1 N := by
    have := run_fold_records_nums P ds es (List.range' 1 N)
      ⟨[], ⟨0, 0, 0⟩, []⟩
    simpa using this
  have hlen : (run_generation P N ds es).records.length = N := by
    have := congrArg List.length hnum
    rw [List.length_map, List.length_range'] at this
    exact this
  obtain ⟨hs, hd, he⟩ := hst
  refine ⟨?_, hnum, hlen, hs, hd, he⟩
  rw [hs, hd, he, countP_cat_partition, hlen]

/-! ### C5: full rarity and no exclusions select every layer -/

/-- C5: if every layer rarity resolves to 100 and the merged ruleset has no
exclusion pairs, then for every presence-draw sequence in `[0, 1)` and
every set of inclusion pairs, every layer of `final_layer_order` having at
least one catalog trait receives a concrete trait in the edition's
selection. -/
theorem rarity100_no_exclusions_layers_present (P : RunParams) (d : Draws)
    (hR : ∀ L, (dict_get P.rules.layer_rarities L).getD 100 = 100)
    (hE : P.rules.exclude_pairs = [])
    (hD : ∀ i, 0 ≤ d.presence i ∧ d.presence i < 1) :
    ∀ L ∈ P.final_layer_order, (dict_get P.all_traits L).getD [] ≠ [] →
      (dict_get (select_edition P d).selected L).isSome := by
  intro L hmem hopt
  obtain ⟨i, hi⟩ := exists_enumFrom_of_mem L P.final_layer_order 0 hmem
  exact c5_fold P d hR hE hD P.final_layer_order.enum ⟨[], [], []⟩
    (fun p hp la ta lb tb h1 h2 hm => absurd hm (List.not_mem_nil _))
    (i, L) hi hopt

/-- One layer with a trait and empty rules, for the C5 witness. -/
def w5P : RunParams := ⟨["A"], [("A", ["X"])], ⟨[], [], [], []⟩⟩

/-- C5 witness at a concrete run with rarity defaulting to 100. -/
theorem rarity100_no_exclusions_layers_present_witness :
    (∀ L, (dict_get w5P.rules.layer_rarities L).getD 100 = 100) ∧
    w5P.rules.exclude_pairs = [] ∧
    (∀ i, 0 ≤ zero_draws.presence i ∧ zero_draws.presence i < 1) ∧
    "A" ∈ w5P.final_layer_order ∧
    (dict_get w5P.all_traits "A").getD [] ≠ [] ∧
    (dict_get (select_edition w5P zero_draws).selected "A").isSome := by
  refine ⟨fun L => rfl, rfl,
    fun i => ⟨by show (0 : ℚ) ≤ 0; decide, by show (0 : ℚ) < 1; decide⟩,
    by decide, by decide, ?_⟩
  exact rarity100_no_exclusions_layers_present w5P zero_draws (fun L => rfl)
    rfl (fun i => ⟨by show (0 : ℚ) ≤ 0; decide, by show (0 : ℚ) < 1; decide⟩)
    "A" (by decide) (by decide)

/-! ### C6: zero rarity and the draw-zero boundary -/

/-- One layer with rarity 0. -/
def cx6P : RunParams := ⟨["A"], [("A", ["X"])], ⟨[], [("A", 0)], [], []⟩⟩

/-- C6 counterexample: with layer rarity 0, no inclusion pairs and a
presence draw of exactly 0 — a value in `[0, 1)` — the layer IS present
(the code keeps a layer when `draw ≤ rarity/100`), refuting absence for
every draw sequence in `[0, 1)`. -/
theorem rarity_zero_present_at_draw_zero_cex :
    dict_get cx6P.rules.layer_rarities "A" = some 0 ∧
    cx6P.rules.include_pairs = [] ∧
    zero_draws.presence 0 = 0 ∧
    ((0 : ℚ) ≤ zero_draws.presence 0 ∧ zero_draws.presence 0 < 1) ∧
    dict_get (select_edition cx6P zero_draws).selected "A" = some "X" := by
  decide

/-- C6 amended: a layer with merged rarity 0 that is never the target of an
include pair is absent from every edition's selection whose presence draws
are all strictly positive; presence can occur only at a draw of exactly 0,
since the code keeps the layer iff `draw ≤ 0`. -/
theorem rarity_zero_absent_for_positive_draws (P : RunParams) (d : Draws)
    (L : String) (h0 : dict_get P.rules.layer_rarities L = some 0)
    (hT : ∀ p ∈ P.rules.include_pairs, ∀ q, split_key p.2 = some q → q.1 ≠ L)
    (hD : ∀ i, 0 < d.presence i) :
    dict_get (select_edition P d).selected L = none := by
  apply layer_absent P d L hT
  intro i
  rw [h0]
  show Rat.divInt ((some (0 : Int)).getD 100) 100 < d.presence i
  have hz : Rat.divInt ((some (0 : Int)).getD 100) 100 = 0 := by decide
  rw [hz]
  exact hD i

/-- Draw oracle with strictly positive presence draws. -/
def half_draws : Draws := ⟨fun _ => mkRat 1 2, fun _ => 0, fun _ => 0⟩

/-- C6 amended witness: the rarity-0 layer is absent under positive
draws. -/
theorem rarity_zero_absent_for_positive_draws_witness :
    dict_get cx6P.rules.layer_rarities "A" = some 0 ∧
    cx6P.rules.include_pairs = [] ∧
    (∀ i, 0 < half_draws.presence i) ∧
    dict_get (select_edition cx6P half_draws).selected "A" = none := by
  refine ⟨by decide, rfl, fun i => by show (0 : ℚ) < mkRat 1 2; decide, ?_⟩
  exact rarity_zero_absent_for_positive_draws cx6P half_draws "A" (by decide)
    (fun p hp => absurd hp (List.not_mem_nil _))
    (fun i => by show (0 : ℚ) < mkRat 1 2; decide)

/-! ### C7: clamping of rarity percentages -/

/-- One layer with rarity -50. -/
def cx7P : RunParams := ⟨["A"], [("A", ["X"])], ⟨[], [("A", -50)], [], []⟩⟩

/-- One layer with rarity 0 (same shape as `cx7P`). -/
def cx7zP : RunParams := ⟨["A"], [("A", ["X"])], ⟨[], [("A", 0)], [], []⟩⟩

/-- C7 counterexample: layer presence rarities are NOT clamped: at the
presence draw 0 — a value in `[0, 1)` — a configured rarity of -50 makes
the layer absent while the value 0 keeps it present, so a negative value
does not behave exactly as 0 would. -/
theorem negative_layer_rarity_differs_from_zero_cex :
    dict_get cx7P.rules.layer_rarities "A" = some (-50) ∧
    dict_get cx7zP.rules.layer_rarities "A" = some 0 ∧
    zero_draws.presence 0 = 0 ∧
    dict_get (select_edition cx7P zero_draws).selected "A" = none ∧
    dict_get (select_edition cx7zP zero_draws).selected "A" = some "X" := by
  decide

/-- C7 amended: per-trait weights ARE clamped to non-negative before the
weighted choice (a negative configured value is used as 0); per-layer
presence rarities are used unclamped: a negative rarity makes the
never-forced layer absent for EVERY draw in `[0, 1)` including 0, which
differs from rarity 0 exactly at the draw 0. -/
theorem rarity_clamping_amended (P : RunParams) (d : Draws) :
    (∀ tr key, 0 ≤ trait_weight tr key) ∧
    (∀ (tr : List (String × Int)) key v, dict_get tr key = some v → v < 0 →
      trait_weight tr key = 0) ∧
    (∀ L v, dict_get P.rules.layer_rarities L = some v → v < 0 →
      (∀ p ∈ P.rules.include_pairs, ∀ q, split_key p.2 = some q → q.1 ≠ L) →
      (∀ i, 0 ≤ d.presence i) →
      dict_get (select_edition P d).selected L = none) := by
  refine ⟨?_, ?_, ?_⟩
  · intro tr key
    unfold trait_weight
    split
    · exact le_refl 0
    · rename_i h
      omega
  · intro tr key v hget hv
    unfold trait_weight
    rw [hget]
    simp only [Option.getD_some]
    rw [if_pos hv]
  · intro L v hget hv hT hD
    apply layer_absent P d L hT
    intro i
    rw [hget]
    show Rat.divInt ((some v).getD 100) 100 < d.presence i
    simp only [Option.getD_some]
    have hneg : Rat.divInt v 100 < 0 := by
      rw [Rat.divInt_eq_div]
      apply div_neg_of_neg_of_pos
      · exact_mod_cast hv
      · norm_num
    exact lt_of_lt_of_le hneg (hD i)

/-- C7 amended witness: concrete clamped trait weight and the absent
negative-rarity layer. -/
theorem rarity_clamping_amended_witness :
    (0 ≤ trait_weight [("A:Red", -5)] "A:Red") ∧
    (dict_get [("A:Red", -5)] "A:Red" = some (-5) ∧ (-5 : Int) < 0 ∧
      trait_weight [("A:Red", -5)] "A:Red" = 0) ∧
    (dict_get cx7P.rules.layer_rarities "A" = some (-50) ∧ (-50 : Int) < 0 ∧
      (∀ i, 0 ≤ zero_draws.presence i) ∧
      dict_get (select_edition cx7P zero_draws).selected "A" = none) := by
  refine ⟨?_, ⟨by decide, by decide, ?_⟩, ⟨by decide, by decide,
    fun i => by show (0 : ℚ) ≤ 0; decide, ?_⟩⟩
  · exact (rarity_clamping_amended cx7P zero_draws).1 [("A:Red", -5)] "A:Red"
  · exact (rarity_clamping_amended cx7P zero_draws).2.1 [("A:Red", -5)]
      "A:Red" (-5) (by decide) (by decide)
  · exact (rarity_clamping_amended cx7P zero_draws).2.2 "A" (-50) (by decide)
      (by decide) (fun p hp => absurd hp (List.not_mem_nil _))
      (fun i => by show (0 : ℚ) ≤ 0; decide)

/-! ### C10: a late failure keeps the DNA in the set -/

/-- C10: an edition whose effects raise after `generated_dna.add(dna)` and
that was not itself a duplicate is counted as an error while its DNA stays
in the run's set: every later edition with the identical DNA that reaches
the duplicate check is counted as a duplicate, never as a success — the
error path does not restore the pre-edition DNA-set state. -/
theorem run_generation_error_retains_dna (P : RunParams) (N : Nat)
    (ds : Nat → Draws) (es : Nat → Eff) :
    ∀ r1 ∈ (run_generation P N ds es).records, es r1.num = .failLate →
      r1.cat ≠ .duplicate →
      r1.cat = .error ∧
      (∀ r2 ∈ (run_generation P N ds es).records, r1.num < r2.num →
        r2.dna = r1.dna → es r2.num ≠ .failEarly →
        r2.cat = .duplicate ∧ r2.cat ≠ .success) := by
  obtain ⟨hknown, hdist, hlater, hcat⟩ := run_generation_inv P N ds es
  intro r1 h1 hfl hnd
  have hcat1 : r1.cat = .error := by
    cases hc : r1.cat with
    | success =>
      have := hcat r1 h1 hc
      rw [hfl] at this
      exact absurd this (by simp)
    | duplicate => exact absurd hc hnd
    | error => rfl
  refine ⟨hcat1, ?_⟩
  intro r2 h2 hlt hdna hne
  have hdup := hlater r1 h1 r2 h2 (Or.inr ⟨hfl, hcat1⟩) hlt hdna hne
  refine ⟨hdup, ?_⟩
  rw [hdup]
  simp

/-- Effects failing the first edition after the DNA add. -/
def w10es : Nat → Eff := fun n => if n = 1 then .failLate else .ok

/-- C10 witness: edition 1 fails late (error), edition 2 with the same
selection is a duplicate. -/
theorem run_generation_error_retains_dna_witness :
    ((⟨1, "A:X", .error⟩ : EdRecord) ∈
        (run_generation w5P 2 (fun _ => zero_draws) w10es).records ∧
      w10es 1 = .failLate ∧ (Category.error : Category) ≠ .duplicate) ∧
    (Category.error : Category) = .error ∧
    ((⟨2, "A:X", .duplicate⟩ : EdRecord) ∈
        (run_generation w5P 2 (fun _ => zero_draws) w10es).records ∧
      (1 : Nat) < 2 ∧ w10es 2 ≠ .failEarly ∧
      (Category.duplicate : Category) = .duplicate ∧
      (Category.duplicate : Category) ≠ .success) := by
  have h := run_generation_error_retains_dna w5P 2 (fun _ => zero_draws)
    w10es ⟨1, "A:X", .error⟩ (by decide) (by decide) (by decide)
  refine ⟨⟨by decide, by decide, by decide⟩, h.1, ?_⟩
  have h2 := h.2 ⟨2, "A:X", .duplicate⟩ (by decide) (by decide) (by decide)
    (by decide)
  exact ⟨by decide, by decide, by decide, h2.1, h2.2⟩


end C3NFT
